import Mathlib

/-!
Verification development for the OpenAPI MCP server core
(`src/core/cache-manager.ts`, `src/core/openapi-client.ts`,
`src/tools/validate-request.ts`).

The TypeScript source is shallowly embedded: JavaScript values flowing
through the validator are modelled by the inductive `JVal` (JS numbers are
modelled as rationals; the claims under study do not depend on binary
floating-point artifacts), thrown JS exceptions by `Except JsError`, and
the stateful cache by explicit state passing over `CacheState`.
-/

/-- JsError models a thrown JavaScript exception: `thrown` is an explicit
`throw new Error(msg)`, `typeError` a runtime `TypeError` (e.g. using the
`in` operator on `null`), and `syntaxError` a `SyntaxError` (e.g. compiling
an invalid regular expression with `new RegExp`). -/
inductive JsError where
  | thrown (msg : String)
  | typeError (msg : String)
  | syntaxError (msg : String)
deriving DecidableEq

/-- JVal models a JavaScript runtime value as produced by JSON parsing:
string, number, boolean, `null`, array, or plain object (an ordered list of
key/value fields, keys unique as produced by `JSON.parse`). -/
inductive JVal where
  | vStr (s : String)
  | vNum (q : Rat)
  | vBool (b : Bool)
  | vNull
  | vArr (elems : List JVal)
  | vObj (fields : List (String × JVal))

/-- jsTypeof models `Array.isArray(value) ? 'array' : typeof value` as used
at `validate-request.ts:312`; note `typeof null === 'object'` in JS. -/
def jsTypeof : JVal → String
  | .vArr _ => "array"
  | .vStr _ => "string"
  | .vNum _ => "number"
  | .vBool _ => "boolean"
  | .vObj _ => "object"
  | .vNull => "object"

/-- jsStrictEq models SameValueZero / `===` comparison as used by
`Array.prototype.includes` and `Set` membership. Primitives compare
structurally; objects and arrays compare by reference in JS, and the values
compared here (schema constants from the parsed document vs. freshly parsed
request data) are always distinct references, so those comparisons are
`false`. -/
def jsStrictEq : JVal → JVal → Bool
  | .vStr a, .vStr b => a == b
  | .vNum a, .vNum b => a == b
  | .vBool a, .vBool b => a == b
  | .vNull, .vNull => true
  | _, _ => false

/-- jsSetSize models `new Set(value).size`: the number of distinct elements
under SameValueZero. -/
def jsSetSize (xs : List JVal) : Nat :=
  (xs.foldl (fun acc x => if acc.any (fun y => jsStrictEq y x) then acc else acc.concat x) []).length

/-- jsCharLower models `String.prototype.toLowerCase` per character on the
ASCII range (header names and HTTP methods are ASCII in the flows under
study). -/
def jsCharLower (c : Char) : Char :=
  if 'A' ≤ c ∧ c ≤ 'Z' then Char.ofNat (c.toNat + 32) else c

/-- jsToLower models `String.prototype.toLowerCase` (ASCII core). -/
def jsToLower (s : String) : String :=
  ⟨s.data.map jsCharLower⟩

/-- optTruthy models JS truthiness of an optional boolean field:
`undefined` and `false` are falsy. -/
def optTruthy : Option Bool → Bool
  | some true => true
  | _ => false

/-- strTruthy models JS truthiness of an optional string field:
`undefined` and the empty string are falsy. -/
def strTruthy : Option String → Bool
  | some s => s ≠ ""
  | none => false

/-- assocLookup models reading `obj[key]` / `key in obj` on a JS object
modelled as an association list. -/
def assocLookup {β : Type} : List (String × β) → String → Option β
  | [], _ => none
  | kv :: l, k => if kv.1 = k then some kv.2 else assocLookup l k

/-- assocSet models `obj[key] = v` on a JS object / Map: overwrite the
existing binding in place, otherwise append. -/
def assocSet {β : Type} : List (String × β) → String → β → List (String × β)
  | [], k, v => [(k, v)]
  | kv :: l, k, v => if kv.1 = k then (k, v) :: l else kv :: assocSet l k v

/-- assocErase models `map.delete(key)` / removing a stored record. -/
def assocErase {β : Type} : List (String × β) → String → List (String × β)
  | [], _ => []
  | kv :: l, k => if kv.1 = k then l else kv :: assocErase l k

mutual

/-- jvalDisplay models JS `String(x)` as used by `Array.prototype.join`
(which renders `null` as the empty string). -/
def jvalDisplay : JVal → String
  | .vStr s => s
  | .vNum q => toString q
  | .vBool b => if b then "true" else "false"
  | .vNull => ""
  | .vArr xs => jvalDisplayList xs
  | .vObj _ => "[object Object]"

/-- jvalDisplayList models `Array.prototype.join(',')` applied by JS array
stringification. -/
def jvalDisplayList : List JVal → String
  | [] => ""
  | [x] => jvalDisplay x
  | x :: xs => jvalDisplay x ++ "," ++ jvalDisplayList xs

end

/-- jvalJoinComma models `array.join(', ')` as used in the enum-violation
message at `validate-request.ts:373`. -/
def jvalJoinComma : List JVal → String
  | [] => ""
  | [x] => jvalDisplay x
  | x :: xs => jvalDisplay x ++ ", " ++ jvalJoinComma xs

/-- SchemaCore holds the non-recursive constraint fields of the `Schema`
interface (`src/types/openapi.ts:111`) that `validateAgainstSchema` reads.
Metadata fields it never reads (title, description, format, ...) are
omitted. -/
structure SchemaCore where
  ref : Option String := none
  type : Option String := none
  multipleOf : Option Rat := none
  maximum : Option Rat := none
  exclusiveMaximum : Option Bool := none
  minimum : Option Rat := none
  exclusiveMinimum : Option Bool := none
  maxLength : Option Nat := none
  minLength : Option Nat := none
  pattern : Option String := none
  maxItems : Option Nat := none
  minItems : Option Nat := none
  uniqueItems : Option Bool := none
  maxProperties : Option Nat := none
  minProperties : Option Nat := none
  required : Option (List String) := none
  enum : Option (List JVal) := none

/-- Schema is the recursive schema node: the constraint core plus the
`properties` map and `items` sub-schema declared by sub-structures
(`src/types/openapi.ts:137`). -/
inductive Schema where
  | mk (core : SchemaCore) (properties : Option (List (String × Schema))) (items : Option Schema)

/-- Schema.core projects the constraint core. -/
def Schema.core : Schema → SchemaCore
  | .mk c _ _ => c

/-- Schema.properties projects the declared property sub-schemas. -/
def Schema.properties : Schema → Option (List (String × Schema))
  | .mk _ p _ => p

/-- Schema.items projects the declared array element sub-schema. -/
def Schema.items : Schema → Option Schema
  | .mk _ _ i => i

/-- schemaBaseErrors collects the per-node constraint errors of
`ValidateRequestTool.validateAgainstSchema` (`validate-request.ts:307-375`)
that apply to every value: type mismatch, string, number and array
constraints, and enum membership, in source push order. `rt` abstracts
`new RegExp(pattern)` followed by `.test(value)` (JS regular-expression
semantics are not re-implemented): `rt pattern` is `none` when the pattern
is not a valid regular expression, in which case the `new RegExp` call at
`validate-request.ts:327` throws a `SyntaxError`, and `some test` with the
compiled matcher otherwise. -/
def schemaBaseErrors (rt : String → Option (String → Bool)) (value : JVal) (c : SchemaCore) :
    Except JsError (List String) :=
  -- Basic type validation
  let tErrs : List String :=
    match c.type with
    | some t => if t ≠ jsTypeof value then [s!"Expected type \x27{t}\x27 but got \x27{jsTypeof value}\x27"] else []
    | none => []
  -- String validations; compiling a declared invalid pattern throws
  let sErrsE : Except JsError (List String) :=
    match value with
    | .vStr s =>
      if c.type = some "string" then
        let lenErrs : List String :=
          (match c.minLength with
           | some m => if s.length < m then [s!"String length is less than minimum {m}"] else []
           | none => []) ++
          (match c.maxLength with
           | some m => if s.length > m then [s!"String length exceeds maximum {m}"] else []
           | none => [])
        if strTruthy c.pattern then
          let p := c.pattern.getD ""
          match rt p with
          | none => .error (.syntaxError s!"Invalid regular expression: {p}")
          | some test =>
            .ok (lenErrs ++ (if ¬ test s then [s!"String does not match pattern: {p}"] else []))
        else .ok lenErrs
      else .ok []
    | _ => .ok []
  -- Number validations
  let nErrs : List String :=
    match value with
    | .vNum q =>
      if c.type = some "number" ∨ c.type = some "integer" then
        (if c.type = some "integer" ∧ q.den ≠ 1 then ["Expected integer but got decimal number"] else []) ++
        (match c.minimum with
         | some m =>
           if optTruthy c.exclusiveMinimum then
             if q ≤ m then [s!"Value must be greater than {m}"] else []
           else
             if q < m then [s!"Value must be greater than or equal to {m}"] else []
         | none => []) ++
        (match c.maximum with
         | some m =>
           if optTruthy c.exclusiveMaximum then
             if q ≥ m then [s!"Value must be less than {m}"] else []
           else
             if q > m then [s!"Value must be less than or equal to {m}"] else []
         | none => []) ++
        -- `value % m !== 0`: the float remainder is nonzero iff m = 0 (NaN)
        -- or value / m is not an integer
        (match c.multipleOf with
         | some m => if m = 0 ∨ (q / m).den ≠ 1 then [s!"Value must be a multiple of {m}"] else []
         | none => [])
      else []
    | _ => []
  -- Array validations
  let aErrs : List String :=
    match value with
    | .vArr xs =>
      if c.type = some "array" then
        (match c.minItems with
         | some m => if xs.length < m then [s!"Array has fewer items than minimum {m}"] else []
         | none => []) ++
        (match c.maxItems with
         | some m => if xs.length > m then [s!"Array has more items than maximum {m}"] else []
         | none => []) ++
        (if optTruthy c.uniqueItems ∧ jsSetSize xs ≠ xs.length then ["Array items must be unique"] else [])
      else []
    | _ => []
  -- Enum validation (`schema.enum &&` is truthy for any array, even empty)
  let eErrs : List String :=
    match c.enum with
    | some es =>
      if ¬ es.any (fun e => jsStrictEq e value) then
        [s!"Value must be one of: " ++ jvalJoinComma es]
      else []
    | none => []
  match sErrsE with
  | .error e => .error e
  | .ok sErrs => .ok (tErrs ++ sErrs ++ nErrs ++ aErrs ++ eErrs)

/-- schemaObjectErrors collects the object-branch errors of
`validateAgainstSchema` (`validate-request.ts:377-395`): missing required
properties and property-count bounds. -/
def schemaObjectErrors (c : SchemaCore) (fields : List (String × JVal)) : List String :=
  let rErrs : List String :=
    match c.required with
    | some reqs => reqs.filterMap
        (fun rp => if (assocLookup fields rp).isNone then some s!"Missing required property: {rp}" else none)
    | none => []
  let propCount := fields.length
  let pErrs : List String :=
    (match c.minProperties with
     | some m => if propCount < m then [s!"Object has fewer properties than minimum {m}"] else []
     | none => []) ++
    (match c.maxProperties with
     | some m => if propCount > m then [s!"Object has more properties than maximum {m}"] else []
     | none => [])
  rErrs ++ pErrs

/-- validateAgainstSchema embeds
`ValidateRequestTool.validateAgainstSchema` (`validate-request.ts:307-398`).
It returns the accumulated error strings, in source push order: the
per-node constraint errors (`schemaBaseErrors`) followed, for object
values under an object schema, by the object errors
(`schemaObjectErrors`). The object branch throws a `TypeError` when the
value is `null`, exactly as `\x27prop\x27 in null` / `Object.keys(null)` do in
JS, since `typeof null === \x27object\x27` lets `null` enter that branch (the
source checks `schema.type === \x27object\x27 && typeof value === \x27object\x27 &&
!Array.isArray(value)`). -/
def validateAgainstSchema (rt : String → Option (String → Bool)) (value : JVal) (schema : Schema) :
    Except JsError (List String) :=
  let c := schema.core
  match value, c.type with
  | .vNull, some "object" =>
    -- the base checks cannot throw here: the pattern is only compiled for
    -- a string value under a string-typed schema
    (match c.required with
     | some (_ :: _) => .error (.typeError "Cannot use \x27in\x27 operator to search for property in null")
     | _ => .error (.typeError "Cannot convert undefined or null to object"))
  | .vObj fields, some "object" =>
    (match schemaBaseErrors rt (.vObj fields) c with
     | .error e => .error e
     | .ok base => .ok (base ++ schemaObjectErrors c fields))
  | _, _ => schemaBaseErrors rt value c

/-- Parameter embeds the `Parameter` interface (`src/types/openapi.ts:75`);
the `in` field is named `inLoc` (`in` is a Lean keyword). Metadata fields
the validator never reads are omitted. -/
structure Parameter where
  name : String
  inLoc : String
  required : Option Bool := none
  deprecated : Option Bool := none
  allowEmptyValue : Option Bool := none
  schema : Option Schema := none

/-- MediaTypeObj embeds the `MediaType` interface (`src/types/openapi.ts:97`). -/
structure MediaTypeObj where
  schema : Option Schema := none

/-- RequestBody embeds the `RequestBody` interface
(`src/types/openapi.ts:91`); `content` is optional here because the code
guards `if (!content) return`. The schema of a media type may carry a
`$ref` (read from `schema.$ref` in the source); it lives in
`SchemaCore.ref`. -/
structure RequestBody where
  required : Option Bool := none
  content : Option (List (String × MediaTypeObj)) := none

/-- Operation embeds the fields of the `Operation` interface read by the
request validator. -/
structure Operation where
  parameters : Option (List Parameter) := none
  requestBody : Option RequestBody := none
  deprecated : Option Bool := none

/-- ServerObj stands for a `servers` entry; its contents are never read by
the request validator. -/
structure ServerObj where
  url : String := ""

/-- PathItem embeds the `PathItem` interface (`src/types/openapi.ts:44`),
including the non-operation properties (`$ref` as `ref`, `summary`,
`description`, `servers`, `parameters`) that the untyped property read
`pathItem[methodLower]` can reach, since `execute` does not restrict the
supplied method string to the tool schema's enum. -/
structure PathItem where
  ref : Option String := none
  summary : Option String := none
  description : Option String := none
  get : Option Operation := none
  put : Option Operation := none
  post : Option Operation := none
  delete : Option Operation := none
  options : Option Operation := none
  head : Option Operation := none
  patch : Option Operation := none
  trace : Option Operation := none
  servers : Option (List ServerObj) := none
  parameters : Option (List Parameter) := none

/-- PathItemValue is the JS value produced by the property read
`pathItem[methodLower]` (`validate-request.ts:73`): `undefined`, a declared
operation object, a string property, one of the array properties, or an
object inherited from `Object.prototype` (reachable under the all-lowercase
inherited keys `constructor` and `__proto__`). -/
inductive PathItemValue where
  | undefinedVal
  | op (o : Operation)
  | str (s : String)
  | paramList (ps : List Parameter)
  | serverList (ss : List ServerObj)
  | proto

/-- PathItem.jsIndex models `pathItem[methodLower]`: own properties of the
path item by name, the all-lowercase properties inherited from
`Object.prototype`, and `undefined` for every other key. -/
def PathItem.jsIndex (it : PathItem) : String → PathItemValue
  | "get" => match it.get with | some o => .op o | none => .undefinedVal
  | "put" => match it.put with | some o => .op o | none => .undefinedVal
  | "post" => match it.post with | some o => .op o | none => .undefinedVal
  | "delete" => match it.delete with | some o => .op o | none => .undefinedVal
  | "options" => match it.options with | some o => .op o | none => .undefinedVal
  | "head" => match it.head with | some o => .op o | none => .undefinedVal
  | "patch" => match it.patch with | some o => .op o | none => .undefinedVal
  | "trace" => match it.trace with | some o => .op o | none => .undefinedVal
  | "$ref" => match it.ref with | some s => .str s | none => .undefinedVal
  | "summary" => match it.summary with | some s => .str s | none => .undefinedVal
  | "description" => match it.description with | some s => .str s | none => .undefinedVal
  | "servers" => match it.servers with | some ss => .serverList ss | none => .undefinedVal
  | "parameters" => match it.parameters with | some ps => .paramList ps | none => .undefinedVal
  | "constructor" => .proto
  | "__proto__" => .proto
  | _ => .undefinedVal

/-- PathItemValue.truthy models the `if (!operation)` check at
`validate-request.ts:75`: `undefined` and the empty string are falsy,
while objects and arrays (even empty ones) are truthy. -/
def PathItemValue.truthy : PathItemValue → Bool
  | .undefinedVal => false
  | .op _ => true
  | .str s => s ≠ ""
  | .paramList _ => true
  | .serverList _ => true
  | .proto => true

/-- PathItemValue.asOperation models the subsequent reads
`operation.parameters` / `operation.requestBody` / `operation.deprecated`
on the truthy indexed value: on a non-operation value (a string, an array,
an inherited object) each of them reads `undefined` without throwing, so
the request is validated against an operation with no declarations. -/
def PathItemValue.asOperation : PathItemValue → Operation
  | .op o => o
  | _ => { parameters := none, requestBody := none, deprecated := none }

/-- InfoObj stands for the spec `info` block; its contents are not read by
the code under study beyond a truthiness check. -/
structure InfoObj where
  title : String := ""
  version : String := ""

/-- ComponentsObj embeds the `components` section, of which only the
`schemas` map is addressed by `resolveRef`. -/
structure ComponentsObj where
  schemas : Option (List (String × Schema)) := none

/-- OpenAPISpec embeds the `OpenAPISpec` interface as the validator and
client read it. `openapi`/`swagger`/`info` are optional because
`validateSpec` checks their presence at runtime. -/
structure OpenAPISpec where
  openapi : Option String := none
  swagger : Option String := none
  info : Option InfoObj := none
  paths : List (String × PathItem) := []
  components : Option ComponentsObj := none

/-- resolveRef embeds `ValidateRequestTool.resolveRef`
(`validate-request.ts:400-417`). The source walks the `#/`-rooted pointer
segments generically over the spec object; in the typed embedding the
walk is spelled out for the `#/components/schemas/<name>` pointers, the
only pointer shape that addresses a `Schema` in the typed document. -/
def resolveRef (ref : String) (spec : OpenAPISpec) : Option Schema :=
  if ¬ ref.startsWith "#/" then none
  else
    match (ref.drop 2).splitOn "/" with
    | ["components", "schemas", n] =>
      match spec.components with
      | some comps =>
        match comps.schemas with
        | some schemas => assocLookup schemas n
        | none => none
      | none => none
    | _ => none

/-- VError is one element of `ValidationResult.errors`
(`validate-request.ts:14`). -/
structure VError where
  location : String
  field : String
  message : String
deriving DecidableEq

/-- ValidationResult embeds the `ValidationResult` interface
(`validate-request.ts:12-20`). -/
structure ValidationResult where
  valid : Bool
  errors : List VError
  warnings : List String
deriving DecidableEq

/-- pushErr models `result.errors.push(...)`. -/
def pushErr (r : ValidationResult) (loc fld msg : String) : ValidationResult :=
  { r with errors := r.errors ++ [⟨loc, fld, msg⟩] }

/-- pushWarn models `result.warnings.push(...)`. -/
def pushWarn (r : ValidationResult) (w : String) : ValidationResult :=
  { r with warnings := r.warnings ++ [w] }

/-- pushSchemaErrs models the `validationErrors.forEach(error => result.errors.push({...}))`
pattern shared by the parameter validators. -/
def pushSchemaErrs (r : ValidationResult) (loc fld : String) (errs : List String) : ValidationResult :=
  errs.foldl (fun acc m => pushErr acc loc fld m) r

/-- jsIsEmptyString models `value === ''`. -/
def jsIsEmptyString : JVal → Bool
  | .vStr s => s = ""
  | _ => false

/-- validatePathParameters embeds
`ValidateRequestTool.validatePathParameters` (`validate-request.ts:120-164`):
a path parameter is required unless `required === false`
(`param.required !== false`), then a present value is checked against the
declared schema and a deprecation warning may be pushed. -/
def validatePathParameters (rt : String → Option (String → Bool)) :
    List Parameter → List (String × JVal) → ValidationResult → Except JsError ValidationResult
  | [], _, r => .ok r
  | p :: ps, provided, r =>
    let r :=
      if p.required ≠ some false ∧ (assocLookup provided p.name).isNone then
        pushErr r "path" p.name s!"Required path parameter \x27{p.name}\x27 is missing"
      else r
    match assocLookup provided p.name with
    | some v =>
      let afterSchema : Except JsError ValidationResult :=
        match p.schema with
        | some s =>
          match validateAgainstSchema rt v s with
          | .error e => .error e
          | .ok errs => .ok (pushSchemaErrs r "path" p.name errs)
        | none => .ok r
      match afterSchema with
      | .error e => .error e
      | .ok r =>
        let r := if optTruthy p.deprecated then pushWarn r s!"Path parameter \x27{p.name}\x27 is deprecated" else r
        validatePathParameters rt ps provided r
    | none => validatePathParameters rt ps provided r

/-- validateQueryParameters embeds
`ValidateRequestTool.validateQueryParameters` (`validate-request.ts:166-210`):
a query parameter is required only when `required` is truthy
(`param.required && ...`); a present value is schema-checked, may trigger a
deprecation warning, and an empty string is rejected unless
`allowEmptyValue` is truthy. -/
def validateQueryParameters (rt : String → Option (String → Bool)) :
    List Parameter → List (String × JVal) → ValidationResult → Except JsError ValidationResult
  | [], _, r => .ok r
  | p :: ps, provided, r =>
    let r :=
      if optTruthy p.required ∧ (assocLookup provided p.name).isNone then
        pushErr r "query" p.name s!"Required query parameter \x27{p.name}\x27 is missing"
      else r
    match assocLookup provided p.name with
    | some v =>
      let afterSchema : Except JsError ValidationResult :=
        match p.schema with
        | some s =>
          match validateAgainstSchema rt v s with
          | .error e => .error e
          | .ok errs => .ok (pushSchemaErrs r "query" p.name errs)
        | none => .ok r
      match afterSchema with
      | .error e => .error e
      | .ok r =>
        let r := if optTruthy p.deprecated then pushWarn r s!"Query parameter \x27{p.name}\x27 is deprecated" else r
        let r :=
          if ¬ optTruthy p.allowEmptyValue ∧ jsIsEmptyString v then
            pushErr r "query" p.name s!"Query parameter \x27{p.name}\x27 cannot be empty"
          else r
        validateQueryParameters rt ps provided r
    | none => validateQueryParameters rt ps provided r

/-- lowerHeaders models the
`Object.keys(providedHeaders).reduce((acc, key) => { acc[key.toLowerCase()] = providedHeaders[key]; ... }, {})`
fold at `validate-request.ts:219-222`: an object keyed by the lowercased
header names, later keys overwriting earlier ones. -/
def lowerHeaders (hs : List (String × JVal)) : List (String × JVal) :=
  hs.foldl (fun acc kv => assocSet acc (jsToLower kv.1) kv.2) []

/-- validateHeaderParameters embeds
`ValidateRequestTool.validateHeaderParameters` (`validate-request.ts:212-253`):
the declared name and the provided header names are both lowercased before
matching. -/
def validateHeaderParameters (rt : String → Option (String → Bool)) :
    List Parameter → List (String × JVal) → ValidationResult → Except JsError ValidationResult
  | [], _, r => .ok r
  | p :: ps, provided, r =>
    let headerName := jsToLower p.name
    let providedLower := lowerHeaders provided
    let r :=
      if optTruthy p.required ∧ (assocLookup providedLower headerName).isNone then
        pushErr r "header" p.name s!"Required header \x27{p.name}\x27 is missing"
      else r
    match assocLookup providedLower headerName with
    | some v =>
      let afterSchema : Except JsError ValidationResult :=
        match p.schema with
        | some s =>
          match validateAgainstSchema rt v s with
          | .error e => .error e
          | .ok errs => .ok (pushSchemaErrs r "header" p.name errs)
        | none => .ok r
      match afterSchema with
      | .error e => .error e
      | .ok r =>
        let r := if optTruthy p.deprecated then pushWarn r s!"Header \x27{p.name}\x27 is deprecated" else r
        validateHeaderParameters rt ps provided r
    | none => validateHeaderParameters rt ps provided r

/-- jsNullish models `x === undefined || x === null` for the optional body
(`undefined` is `none`, JS `null` is `some .vNull`). -/
def jsNullish : Option JVal → Bool
  | none => true
  | some .vNull => true
  | some _ => false

/-- validateRequestBody embeds
`ValidateRequestTool.validateRequestBody` (`validate-request.ts:255-305`). -/
def validateRequestBody (rt : String → Option (String → Bool)) (rb : RequestBody)
    (providedBody : Option JVal) (spec : OpenAPISpec) (r : ValidationResult) :
    Except JsError ValidationResult :=
  if optTruthy rb.required ∧ jsNullish providedBody then
    .ok (pushErr r "body" "body" "Request body is required but not provided")
  else if jsNullish providedBody then
    .ok r
  else
    match rb.content with
    | none => .ok r
    | some content =>
      match assocLookup content "application/json" with
      | none => .ok r
      | some jsonContent =>
        match jsonContent.schema with
        | none => .ok r
        | some schema0 =>
          let body := providedBody.getD .vNull
          if strTruthy schema0.core.ref then
            let refStr := schema0.core.ref.getD ""
            match resolveRef refStr spec with
            | none => .ok (pushWarn r s!"Could not resolve schema reference: {refStr}")
            | some schema =>
              match validateAgainstSchema rt body schema with
              | .error e => .error e
              | .ok errs => .ok (pushSchemaErrs r "body" "body" errs)
          else
            match validateAgainstSchema rt body schema0 with
            | .error e => .error e
            | .ok errs => .ok (pushSchemaErrs r "body" "body" errs)

/-- ValidateRequestArgs embeds the `ValidateRequestArgs` interface
(`validate-request.ts:4-10`); `path` and `method` are present by typing, as
`validateArgs(args, ['path','method'])` enforces at runtime. -/
structure ValidateRequestArgs where
  path : String
  method : String
  params : Option (List (String × JVal)) := none
  headers : Option (List (String × JVal)) := none
  body : Option JVal := none

/-- execute embeds `ValidateRequestTool.execute`
(`validate-request.ts:58-118`): resolve the path item (throwing when
absent), read `pathItem[methodLower]` and throw when the value is falsy,
run the four location validators accumulating into one result, add the
deprecation warning, and finally set `valid = errors.length === 0`. -/
def ValidateRequestTool.execute (rt : String → Option (String → Bool))
    (args : ValidateRequestArgs) (spec? : Option OpenAPISpec) :
    Except JsError ValidationResult :=
  match spec? with
  | none => .error (.thrown "No OpenAPI specification loaded")
  | some spec =>
    match assocLookup spec.paths args.path with
    | none => .error (.thrown s!"Path not found: {args.path}")
    | some pathItem =>
      let opVal := pathItem.jsIndex (jsToLower args.method)
      if ¬ opVal.truthy then
        .error (.thrown s!"Method {args.method} not found for path {args.path}")
      else
        let operation := opVal.asOperation
        let params := args.params.getD []
        let headers := args.headers.getD []
        let r0 : ValidationResult := ⟨true, [], []⟩
        let allParameters := pathItem.parameters.getD [] ++ operation.parameters.getD []
        match validatePathParameters rt (allParameters.filter (fun p => p.inLoc = "path")) params r0 with
        | .error e => .error e
        | .ok r1 =>
        match validateQueryParameters rt (allParameters.filter (fun p => p.inLoc = "query")) params r1 with
        | .error e => .error e
        | .ok r2 =>
        match validateHeaderParameters rt (allParameters.filter (fun p => p.inLoc = "header")) headers r2 with
        | .error e => .error e
        | .ok r3 =>
        let afterBody : Except JsError ValidationResult :=
          match operation.requestBody with
          | some rb => validateRequestBody rt rb args.body spec r3
          | none =>
            .ok (if ¬ jsNullish args.body then
              pushWarn r3 "Request body provided but not expected for this endpoint" else r3)
        match afterBody with
        | .error e => .error e
        | .ok r4 =>
          let r5 := if optTruthy operation.deprecated then pushWarn r4 "This endpoint is deprecated" else r4
          .ok { r5 with valid := r5.errors.length == 0 }

/-- CacheEntry embeds the `CacheEntry` interface
(`cache-manager.ts:13-19`); `timestamp` is the `Date.now()` write instant
in milliseconds. -/
structure CacheEntry where
  spec : OpenAPISpec
  etag : Option String := none
  lastModified : Option String := none
  timestamp : Int
  url : String

/-- CacheState is the two-tier store of `CacheManager`: the in-memory LRU
tier and the durable disk tier, both keyed by URL. The source keys disk
records by the SHA-256 hex of the URL (an injective renaming) and stores
them gzip-compressed; the embedding keys directly by URL and models the
records as parsed (the corruption-eviction branch of `get` is outside the
claims under study). LRU recency/size bookkeeping touches which entries
survive in memory but every entry also lives on disk after `set`, and both
tiers re-check freshness explicitly, so the assoc-list model preserves the
observable get/set behavior. -/
structure CacheState where
  memory : List (String × CacheEntry) := []
  disk : List (String × CacheEntry) := []

/-- cacheGetDisk embeds the disk-tier half of `CacheManager.get`
(`cache-manager.ts:76-98`): a fresh disk record is promoted into the
memory tier and returned; a stale record is unlinked. -/
def cacheGetDisk (ttl now : Int) (url : String) (st : CacheState) :
    Option CacheEntry × CacheState :=
  match assocLookup st.disk url with
  | some e =>
    if now - e.timestamp < ttl then
      (some e, { st with memory := assocSet st.memory url e })
    else
      (none, { st with disk := assocErase st.disk url })
  | none => (none, st)

/-- cacheGet embeds `CacheManager.get` (`cache-manager.ts:64-101`): the
memory tier is consulted first and a stale memory entry is deleted before
falling back to the disk tier. -/
def cacheGet (ttl now : Int) (url : String) (st : CacheState) :
    Option CacheEntry × CacheState :=
  match assocLookup st.memory url with
  | some e =>
    if now - e.timestamp < ttl then (some e, st)
    else cacheGetDisk ttl now url { st with memory := assocErase st.memory url }
  | none => cacheGetDisk ttl now url st

/-- cacheSet embeds `CacheManager.set` (`cache-manager.ts:103-124`): build
the entry with `timestamp = Date.now()` and write it to both tiers (a
disk-write failure is logged, not raised; the embedding models the write
as succeeding). -/
def cacheSet (now : Int) (url : String) (spec : OpenAPISpec)
    (etag lastModified : Option String) (st : CacheState) : CacheState :=
  let e : CacheEntry := ⟨spec, etag, lastModified, now, url⟩
  { memory := assocSet st.memory url e, disk := assocSet st.disk url e }

/-- FetchErr is an axios-level failure: an HTTP error status response
(`error.response.status`) or a network-level failure with no response. -/
inductive FetchErr where
  | httpStatus (code : Nat)
  | network (msg : String)
deriving DecidableEq

/-- NetResponse models a successful axios response: the status, the parsed
payload (`parseResponse`, whose JSON/YAML content-type sniffing is not
re-modelled: the embedding carries the parsed document directly) and the
revalidation headers. -/
structure NetResponse where
  status : Nat
  spec : OpenAPISpec
  etag : Option String := none
  lastModified : Option String := none

/-- AttemptRes is the outcome of one `axios.get` attempt. -/
inductive AttemptRes where
  | success (r : NetResponse)
  | failure (e : FetchErr)

/-- is4xx models the non-retry test at `openapi-client.ts:109`:
`error.response && error.response.status >= 400 && error.response.status < 500`. -/
def is4xx : FetchErr → Bool
  | .httpStatus c => 400 ≤ c ∧ c < 500
  | .network _ => false

/-- isTransient is an attempt outcome that the retry loop will retry: a
failure that is not a 4xx client error. -/
def isTransient : AttemptRes → Bool
  | .failure e => ¬ is4xx e
  | .success _ => false

/-- fetchWithRetryGo embeds the loop body of `OpenAPIClient.fetchWithRetry`
(`openapi-client.ts:96-122`) as recursion over the remaining attempts
(`fuel = retryAttempts - attempt`). It returns the outcome, the number of
`axios.get` calls made, and the list of back-off delays slept between
consecutive attempts (`retryDelay * 2 ** attempt`, slept only while
`attempt < retryAttempts - 1`). A loop that never ran throws the
`undefined` last error. -/
def fetchWithRetryGo (net : Nat → AttemptRes) (d : Nat) (last : Option FetchErr)
    (attempt : Nat) : Nat → Except FetchErr NetResponse × Nat × List Nat
  | 0 => (.error (last.getD (.network "undefined")), 0, [])
  | fuel + 1 =>
    match net attempt with
    | .success r => (.ok r, 1, [])
    | .failure e =>
      if is4xx e then (.error e, 1, [])
      else
        let rest := fetchWithRetryGo net d (some e) (attempt + 1) fuel
        if fuel ≠ 0 then
          (rest.1, rest.2.1 + 1, d * 2 ^ attempt :: rest.2.2)
        else
          (rest.1, rest.2.1 + 1, rest.2.2)

/-- fetchWithRetry embeds `OpenAPIClient.fetchWithRetry`: run the attempt
loop from attempt 0 with `retryAttempts` iterations and back-off base
`retryDelay`. -/
def fetchWithRetry (net : Nat → AttemptRes) (retryAttempts retryDelay : Nat) :
    Except FetchErr NetResponse × Nat × List Nat :=
  fetchWithRetryGo net retryDelay none 0 retryAttempts

/-- jsOrStr models `a || b` on two optional strings (empty string is
falsy). -/
def jsOrStr : Option String → Option String → Option String
  | some s, b => if s ≠ "" then some s else b
  | none, b => b

/-- validateSpec embeds `OpenAPIClient.validateSpec`
(`openapi-client.ts:178-205`): require a version marker, accept Swagger 2.x
by synthesizing `openapi = '3.0.0'` (the source mutates the spec in place;
the embedding returns the updated document), require OpenAPI 3.x otherwise,
and require an `info` block. An empty `paths` map is only a logged
warning. -/
def validateSpec (spec : OpenAPISpec) : Except JsError OpenAPISpec := do
  let version := jsOrStr spec.openapi spec.swagger
  if ¬ strTruthy version then
    throw (.thrown "Invalid spec: missing version field (openapi or swagger)")
  let spec ←
    if strTruthy spec.swagger then
      let sw := spec.swagger.getD ""
      if ¬ sw.startsWith "2." then
        throw (.thrown s!"Unsupported Swagger version: {sw}. Only Swagger 2.x and OpenAPI 3.x are supported.")
      pure { spec with openapi := some "3.0.0" }
    else
      let openapiStr := spec.openapi.getD ""
      if ¬ openapiStr.startsWith "3." then
        throw (.thrown s!"Unsupported OpenAPI version: {openapiStr}. Only OpenAPI 3.x is supported.")
      pure spec
  if spec.info.isNone then
    throw (.thrown "Invalid spec: missing info object")
  pure spec

/-- describeFetchErr renders the caught error into the
`Failed to fetch OpenAPI spec: ...` message. -/
def describeFetchErr : FetchErr → String
  | .httpStatus c => s!"Request failed with status code {c}"
  | .network m => m

/-- fetchSpecFallback embeds the catch block of `OpenAPIClient.fetchSpec`
(`openapi-client.ts:84-93`): after the try block failed, consult the cache
once more through `CacheManager.get` and return the cached document if that
yields one; otherwise rethrow as `Failed to fetch OpenAPI spec`. -/
def fetchSpecFallback (ttl now : Int) (url : String) (st : CacheState) (e : String) :
    Except String OpenAPISpec × CacheState :=
  match cacheGet ttl now url st with
  | (some cached, st) => (.ok cached.spec, st)
  | (none, st) => (.error s!"Failed to fetch OpenAPI spec: {e}", st)

/-- fetchSpecSuccess embeds the tail of the try block of `fetchSpec` on a
non-304 (or cache-less 304) response: parse (already carried by the
response model), resolve references (the external dereferencer never fails
the fetch; the resolved tree is the document itself in the typed model),
validate and cache. A `validateSpec` throw lands in the same catch block
as a fetch failure. -/
def fetchSpecSuccess (ttl now : Int) (url : String) (st : CacheState) (resp : NetResponse) :
    Except String OpenAPISpec × CacheState :=
  match validateSpec resp.spec with
  | .error e =>
    let msg := match e with
      | .thrown m => s!"Error: {m}"
      | .typeError m => s!"TypeError: {m}"
      | .syntaxError m => s!"SyntaxError: {m}"
    fetchSpecFallback ttl now url st msg
  | .ok validated =>
    (.ok validated, cacheSet now url validated resp.etag resp.lastModified st)

/-- fetchSpec embeds `OpenAPIClient.fetchSpec` (`openapi-client.ts:25-94`):
unless `forceRefresh`, a cache hit short-circuits the network; otherwise
the retrying fetch runs, a 304 re-reads the cache, a success is validated
and cached, and any failure in the try block falls back to the cache via
`fetchSpecFallback`. -/
def fetchSpec (retryAttempts retryDelay : Nat) (ttl : Int) (net : Nat → AttemptRes)
    (url : String) (forceRefresh : Bool) (now : Int) (st : CacheState) :
    Except String OpenAPISpec × CacheState :=
  let consult : Option CacheEntry × CacheState :=
    if ¬ forceRefresh then cacheGet ttl now url st else (none, st)
  match consult with
  | (some cached, st) => (.ok cached.spec, st)
  | (none, st) =>
    match fetchWithRetry net retryAttempts retryDelay with
    | (.error e, _, _) => fetchSpecFallback ttl now url st s!"{describeFetchErr e}"
    | (.ok resp, _, _) =>
      if resp.status = 304 then
        match cacheGet ttl now url st with
        | (some cached, st) => (.ok cached.spec, st)
        | (none, st) => fetchSpecSuccess ttl now url st resp
      else fetchSpecSuccess ttl now url st resp

/-- RefNode is a document tree node for reference resolution: leaf content,
an object of named children, or a `$ref` pointer naming a reusable
component. -/
inductive RefNode where
  | scalar (s : String)
  | obj (fields : List (String × RefNode))
  | ref (name : String)

/-- namesLeft counts the component names not yet on the resolution path;
it is the quantity that shrinks whenever the resolver expands a new
reference, which is what makes resolution terminate. -/
def namesLeft (comps : List (String × RefNode)) (visited : List String) : Nat :=
  ((comps.map Prod.fst).filter (fun n => ! visited.contains n)).length

mutual

/-- nodeSize is a structural size measure on document nodes, used in the
termination measure of the resolver. -/
def nodeSize : RefNode → Nat
  | .scalar _ => 1
  | .obj fields => 1 + fieldsSize fields
  | .ref _ => 1

/-- fieldsSize is the structural size of a field list. -/
def fieldsSize : List (String × RefNode) → Nat
  | [] => 0
  | (_, v) :: rest => 1 + nodeSize v + fieldsSize rest

end

mutual

/-- Modelled from the spec: reference resolution (spec section 4.3) is
performed by the external `@apidevtools/json-schema-ref-parser` dependency
(`$RefParser.dereference`, called at `openapi-client.ts:156`), whose code
is not part of this repository. Following the spec's words, the resolver
walks the tree depth-first replacing each reference node by the referenced
component's content, except that a reference whose name is already on the
current resolution path (`visited`) is not expanded further and is
preserved as a back-reference; an unresolvable reference is likewise
preserved. The function is total by well-founded recursion: expanding a
reference strictly shrinks the set of component names not yet being
expanded. -/
def resolveNode (comps : List (String × RefNode)) (visited : List String) :
    RefNode → RefNode
  | .scalar s => .scalar s
  | .obj fields => .obj (resolveFields comps visited fields)
  | .ref name =>
    if hv : visited.contains name then .ref name
    else
      match hl : assocLookup comps name with
      | some body => resolveNode comps (name :: visited) body
      | none => .ref name
termination_by n => (namesLeft comps visited, nodeSize n)
decreasing_by
  · apply Prod.Lex.right
    simp only [nodeSize]
    omega
  · apply Prod.Lex.left
    rename_i name
    -- expanding `name` removes it from the unexpanded component names
    have hmem : name ∈ comps.map Prod.fst := by
      clear hv
      induction comps with
      | nil => simp [assocLookup] at hl
      | cons kv l ih =>
        simp only [assocLookup] at hl
        by_cases hk : kv.1 = name
        · simp only [List.map_cons, List.mem_cons]
          exact Or.inl hk.symm
        · rw [if_neg hk] at hl
          simp only [List.map_cons, List.mem_cons]
          exact Or.inr (ih hl)
    have hnv : visited.contains name = false := by
      simp only [Bool.not_eq_true] at hv
      exact hv
    unfold namesLeft
    have hPP' : ∀ x : String, (! (name :: visited).contains x) = true →
        (! visited.contains x) = true := by
      intro x hx
      simp only [List.contains_cons, Bool.not_eq_true', Bool.or_eq_false_iff] at hx ⊢
      exact hx.2
    generalize comps.map Prod.fst = L at hmem ⊢
    induction L with
    | nil => cases hmem
    | cons a L ih =>
      by_cases ha : a = name
      · subst ha
        have h1 : (! (a :: visited).contains a) = false := by
          simp
        have h2 : (! visited.contains a) = true := by
          simp only [Bool.not_eq_true']
          exact hnv
        rw [List.filter_cons, List.filter_cons, h1, h2]
        have hs := (List.monotone_filter_right L hPP').length_le
        simp only [Bool.false_eq_true, if_false, if_true, List.length_cons]
        omega
      · have hm' : name ∈ L := by
          cases hmem with
          | head => exact absurd rfl ha
          | tail _ h => exact h
        have hne : (! (name :: visited).contains a) = (! visited.contains a) := by
          simp only [List.contains_cons]
          have hab : (a == name) = false := by
            simp [ha]
          simp [hab]
        rw [List.filter_cons, List.filter_cons, hne]
        have hIH := ih hm'
        by_cases hpa : (! visited.contains a) = true
        · simp only [hpa, if_true, List.length_cons]
          omega
        · simp only [Bool.not_eq_true] at hpa
          simp only [hpa]
          simp only [Bool.false_eq_true, if_false]
          exact hIH

/-- resolveFields resolves each named child of an object node in order. -/
def resolveFields (comps : List (String × RefNode)) (visited : List String) :
    List (String × RefNode) → List (String × RefNode)
  | [] => []
  | (k, v) :: rest => (k, resolveNode comps visited v) :: resolveFields comps visited rest
termination_by l => (namesLeft comps visited, fieldsSize l)
decreasing_by
  · apply Prod.Lex.right
    simp only [fieldsSize]
    omega
  · apply Prod.Lex.right
    simp only [fieldsSize]
    omega

end

/-- rtTrue is a concrete regular-expression tester under which every
pattern compiles and every string matches, used to instantiate examples. -/
def rtTrue : String → Option (String → Bool) := fun _ => some (fun _ => true)

/-- spec0 is a minimal valid document with no paths. -/
def spec0 : OpenAPISpec :=
  { openapi := some "3.0.0", info := some {}, paths := [] }

/-- schemaC6 is the body schema of the validation-aggregation example:
an object schema requiring `email` and `name`. -/
def schemaC6 : Schema :=
  .mk { type := some "object", required := some ["email", "name"] } none none

/-- rbC6 is a required JSON request body declared with `schemaC6`. -/
def rbC6 : RequestBody :=
  { required := some true,
    content := some [("application/json", ({ schema := some schemaC6 } : MediaTypeObj))] }

/-- piC6 declares a single POST operation carrying `rbC6`. -/
def piC6 : PathItem :=
  { post := some { requestBody := some rbC6 } }

/-- specC6 is the document of the validation-aggregation example. -/
def specC6 : OpenAPISpec :=
  { openapi := some "3.0.0", info := some {}, paths := [("/users", piC6)] }

/-- argsC6 validates the body `\x7bemail: "a@b.com"\x7d` against
`POST /users` of `specC6`. -/
def argsC6 : ValidateRequestArgs :=
  { path := "/users", method := "POST", body := some (.vObj [("email", .vStr "a@b.com")]) }

/-- netAllDown is a network on which every attempt fails with a
network-level (transient) error. -/
def netAllDown : Nat → AttemptRes := fun _ => .failure (.network "down")

/-- cacheEntry0 is a cache entry written at instant 0. -/
def cacheEntry0 : CacheEntry := { spec := spec0, timestamp := 0, url := "u" }

/-- stFresh holds `cacheEntry0` in the memory tier only. -/
def stFresh : CacheState := { memory := [("u", cacheEntry0)], disk := [] }

/-- stStale holds `cacheEntry0` in both tiers; at `now = 10` with
`ttl = 10` the entry is stale. -/
def stStale : CacheState := { memory := [("u", cacheEntry0)], disk := [("u", cacheEntry0)] }

/-- emptyResult is the initial `ValidationResult` accumulator of
`execute`. -/
def emptyResult : ValidationResult := ⟨true, [], []⟩

/-- keysNodup states the map invariant of the two cache tiers: a JS `Map`
(and a directory of hash-named files) holds at most one record per key. -/
def keysNodup (st : CacheState) : Prop :=
  (st.memory.map Prod.fst).Nodup ∧ (st.disk.map Prod.fst).Nodup

/-- specSummary is a document whose single path item carries only a
`summary` string; indexing it with the method string `SUMMARY` reaches a
truthy non-operation property. -/
def specSummary : OpenAPISpec :=
  { openapi := some "3.0.0", info := some {},
    paths := [("/s", { summary := some "Summary text" })] }

/-- piC6b declares a POST operation with a required query parameter `q`
and the required body of `rbC6`, so one request can violate two
locations at once. -/
def piC6b : PathItem :=
  { post := some
      { parameters := some [{ name := "q", inLoc := "query", required := some true }],
        requestBody := some rbC6 } }

/-- specC6b is the document of the two-location aggregation example. -/
def specC6b : OpenAPISpec :=
  { openapi := some "3.0.0", info := some {}, paths := [("/m", piC6b)] }

/-- argsC6b omits the required query parameter `q` and the required body
property `name` in one request. -/
def argsC6b : ValidateRequestArgs :=
  { path := "/m", method := "POST", body := some (.vObj [("email", .vStr "a@b.com")]) }

/-- errExtends states that one validation result extends another by
appending zero or more errors at the end: the accumulation discipline of
the validators (`result.errors.push(...)` only appends). -/
def errExtends (r r2 : ValidationResult) : Prop :=
  ∃ t, r2.errors = r.errors ++ t

theorem assocLookup_assocSet_self {β : Type} (l : List (String × β)) (k : String) (v : β) :
    assocLookup (assocSet l k v) k = some v := by
  induction l with
  | nil => simp [assocSet, assocLookup]
  | cons kv l ih =>
    by_cases h : kv.1 = k
    · simp [assocSet, assocLookup, h]
    · simp [assocSet, assocLookup, h, ih]

theorem assocLookup_eq_none_of_not_mem {β : Type} (l : List (String × β)) (k : String)
    (h : k ∉ l.map Prod.fst) : assocLookup l k = none := by
  induction l with
  | nil => rfl
  | cons kv l ih =>
    simp only [List.map_cons, List.mem_cons] at h
    push_neg at h
    simp only [assocLookup]
    rw [if_neg (fun hk => h.1 hk.symm)]
    exact ih h.2

theorem assocLookup_assocErase_self {β : Type} (l : List (String × β)) (k : String)
    (h : (l.map Prod.fst).Nodup) : assocLookup (assocErase l k) k = none := by
  induction l with
  | nil => rfl
  | cons kv l ih =>
    simp only [List.map_cons, List.nodup_cons] at h
    by_cases hk : kv.1 = k
    · simp only [assocErase, if_pos hk]
      exact assocLookup_eq_none_of_not_mem l k (hk ▸ h.1)
    · simp only [assocErase, if_neg hk, assocLookup, if_neg hk]
      exact ih h.2

theorem cacheGetDisk_some_spec (ttl now : Int) (url : String) (st : CacheState)
    (e : CacheEntry) (st' : CacheState) (h : cacheGetDisk ttl now url st = (some e, st')) :
    now - e.timestamp < ttl ∧ assocLookup st.disk url = some e ∧
      assocLookup st'.memory url = some e := by
  unfold cacheGetDisk at h
  split at h
  · rename_i ed hd
    split at h
    · rename_i hfresh
      injection h with h1 h2
      injection h1 with h1
      subst h1
      subst h2
      exact ⟨hfresh, hd, assocLookup_assocSet_self _ _ _⟩
    · simp at h
  · simp at h

theorem cacheGet_some_spec (ttl now : Int) (url : String) (st : CacheState)
    (e : CacheEntry) (st' : CacheState) (h : cacheGet ttl now url st = (some e, st')) :
    now - e.timestamp < ttl
    ∧ (assocLookup st.memory url = some e ∨ assocLookup st.disk url = some e)
    ∧ assocLookup st'.memory url = some e := by
  unfold cacheGet at h
  split at h
  · rename_i em hm
    split at h
    · rename_i hfresh
      injection h with h1 h2
      injection h1 with h1
      subst h1
      subst h2
      exact ⟨hfresh, Or.inl hm, hm⟩
    · have := cacheGetDisk_some_spec ttl now url _ e st' h
      exact ⟨this.1, Or.inr this.2.1, this.2.2⟩
  · rename_i hm
    have := cacheGetDisk_some_spec ttl now url st e st' h
    exact ⟨this.1, Or.inr this.2.1, this.2.2⟩

theorem cacheGetDisk_none_of_stale (ttl now : Int) (url : String) (st : CacheState)
    (hd : ∀ e, assocLookup st.disk url = some e → ttl ≤ now - e.timestamp) :
    (cacheGetDisk ttl now url st).1 = none := by
  unfold cacheGetDisk
  split
  · rename_i ed hde
    have := hd ed hde
    rw [if_neg (by omega)]
  · rfl

theorem cacheGet_none_of_stale (ttl now : Int) (url : String) (st : CacheState)
    (hm : ∀ e, assocLookup st.memory url = some e → ttl ≤ now - e.timestamp)
    (hd : ∀ e, assocLookup st.disk url = some e → ttl ≤ now - e.timestamp) :
    (cacheGet ttl now url st).1 = none := by
  unfold cacheGet
  split
  · rename_i em hme
    have := hm em hme
    rw [if_neg (by omega)]
    exact cacheGetDisk_none_of_stale ttl now url _ hd
  · exact cacheGetDisk_none_of_stale ttl now url st hd

theorem cacheGet_none_post (ttl now : Int) (url : String) (st : CacheState)
    (hnd : keysNodup st) (h : (cacheGet ttl now url st).1 = none) :
    assocLookup (cacheGet ttl now url st).2.memory url = none
    ∧ assocLookup (cacheGet ttl now url st).2.disk url = none := by
  obtain ⟨hndm, hndd⟩ := hnd
  unfold cacheGet at h ⊢
  split at h
  · rename_i em hm
    split at h
    · simp at h
    · rename_i hstale
      rw [if_neg hstale]
      unfold cacheGetDisk at h ⊢
      split at h
      · rename_i ed hd
        split at h
        · simp at h
        · rename_i hstale2
          rw [if_neg hstale2]
          exact ⟨assocLookup_assocErase_self _ _ hndm,
            assocLookup_assocErase_self _ _ hndd⟩
      · rename_i hd
        exact ⟨assocLookup_assocErase_self _ _ hndm, hd⟩
  · rename_i hm
    unfold cacheGetDisk at h ⊢
    split at h
    · rename_i ed hd
      split at h
      · simp at h
      · rename_i hstale2
        rw [if_neg hstale2]
        exact ⟨hm, assocLookup_assocErase_self _ _ hndd⟩
    · rename_i hd
      exact ⟨hm, hd⟩

theorem fetchWithRetryGo_all_failure (net : Nat → AttemptRes) (d : Nat) :
    ∀ (fuel attempt : Nat) (last : Option FetchErr),
      (∀ i, attempt ≤ i → i < attempt + fuel → ∃ e, net i = .failure e) →
      ∃ e, (fetchWithRetryGo net d last attempt fuel).1 = .error e := by
  intro fuel
  induction fuel with
  | zero => exact fun attempt last h => ⟨_, rfl⟩
  | succ fuel ih =>
    intro attempt last h
    obtain ⟨e, he⟩ := h attempt le_rfl (by omega)
    simp only [fetchWithRetryGo, he]
    by_cases h4 : is4xx e
    · simp only [h4, if_true]
      exact ⟨e, rfl⟩
    · simp only [h4, Bool.false_eq_true, if_false]
      obtain ⟨e', he'⟩ := ih (attempt + 1) (some e)
        (fun i h1 h2 => h i (by omega) (by omega))
      by_cases hf : fuel ≠ 0
      · rw [if_pos hf]
        exact ⟨e', he'⟩
      · rw [if_neg hf]
        exact ⟨e', he'⟩

theorem fetchWithRetryGo_all_transient (net : Nat → AttemptRes) (d : Nat) :
    ∀ (fuel attempt : Nat) (last : Option FetchErr),
      (∀ i, attempt ≤ i → i < attempt + fuel → isTransient (net i) = true) →
      (∃ e, (fetchWithRetryGo net d last attempt fuel).1 = .error e)
      ∧ (fetchWithRetryGo net d last attempt fuel).2.1 = fuel
      ∧ (fetchWithRetryGo net d last attempt fuel).2.2 =
          (List.range' attempt (fuel - 1)).map (fun i => d * 2 ^ i) := by
  intro fuel
  induction fuel with
  | zero => exact fun attempt last h => ⟨⟨_, rfl⟩, rfl, rfl⟩
  | succ fuel ih =>
    intro attempt last h
    have htr := h attempt le_rfl (by omega)
    cases hne : net attempt with
    | success r => rw [hne] at htr; simp [isTransient] at htr
    | failure e =>
      have h4 : is4xx e = false := by
        rw [hne] at htr
        simpa [isTransient] using htr
      simp only [fetchWithRetryGo, hne, h4, Bool.false_eq_true, if_false]
      have hrest := ih (attempt + 1) (some e)
        (fun i h1 h2 => h i (by omega) (by omega))
      cases fuel with
      | zero =>
        rw [if_neg (by omega)]
        exact ⟨⟨e, rfl⟩, rfl, rfl⟩
      | succ f =>
        rw [if_pos (by omega)]
        refine ⟨⟨hrest.1.choose, hrest.1.choose_spec⟩, by rw [hrest.2.1], ?_⟩
        rw [hrest.2.2]
        rfl

theorem fetchWithRetryGo_4xx (net : Nat → AttemptRes) (d : Nat) :
    ∀ (k fuel attempt : Nat) (last : Option FetchErr) (err : FetchErr),
      k < fuel →
      (∀ i, attempt ≤ i → i < attempt + k → isTransient (net i) = true) →
      net (attempt + k) = .failure err → is4xx err = true →
      fetchWithRetryGo net d last attempt fuel =
        (.error err, k + 1, (List.range' attempt k).map (fun i => d * 2 ^ i)) := by
  intro k
  induction k with
  | zero =>
    intro fuel attempt last err hk htr hnet h4
    cases fuel with
    | zero => omega
    | succ f =>
      rw [Nat.add_zero] at hnet
      simp only [fetchWithRetryGo, hnet, h4, if_true]
      rfl
  | succ k ih =>
    intro fuel attempt last err hk htr hnet h4
    cases fuel with
    | zero => omega
    | succ f =>
      have htr0 := htr attempt le_rfl (by omega)
      cases hne : net attempt with
      | success r => rw [hne] at htr0; simp [isTransient] at htr0
      | failure e =>
        have h4e : is4xx e = false := by
          rw [hne] at htr0
          simpa [isTransient] using htr0
        simp only [fetchWithRetryGo, hne, h4e, Bool.false_eq_true, if_false]
        rw [if_pos (by omega)]
        have hnet' : net (attempt + 1 + k) = .failure err := by
          rw [show attempt + 1 + k = attempt + (k + 1) by omega]
          exact hnet
        rw [ih f (attempt + 1) (some e) err (by omega)
          (fun i h1 h2 => htr i (by omega) (by omega)) hnet' h4]
        rfl


theorem schemaBaseErrors_error_syntaxError (rt : String → Option (String → Bool))
    (v : JVal) (c : SchemaCore) (e : JsError) (h : schemaBaseErrors rt v c = .error e) :
    ∃ m, e = .syntaxError m := by
  simp only [schemaBaseErrors] at h
  split at h
  · rename_i e1 heq
    injection h with h
    subst h
    split at heq
    · split at heq
      · split at heq
        · split at heq
          · injection heq with heq
            exact ⟨_, heq.symm⟩
          · exact Except.noConfusion heq
        · exact Except.noConfusion heq
      · exact Except.noConfusion heq
    · exact Except.noConfusion heq
  · exact Except.noConfusion h

theorem validateAgainstSchema_error_runtime (rt : String → Option (String → Bool)) (v : JVal)
    (s : Schema) (e : JsError) (h : validateAgainstSchema rt v s = .error e) :
    (∃ m, e = .typeError m) ∨ (∃ m, e = .syntaxError m) := by
  simp only [validateAgainstSchema] at h
  split at h
  · split at h
    · injection h with h
      exact Or.inl ⟨_, h.symm⟩
    · injection h with h
      exact Or.inl ⟨_, h.symm⟩
  · split at h
    · rename_i e1 heq
      injection h with h
      subst h
      exact Or.inr (schemaBaseErrors_error_syntaxError _ _ _ _ heq)
    · exact Except.noConfusion h
  · exact Or.inr (schemaBaseErrors_error_syntaxError _ _ _ _ h)

theorem validatePathParameters_error_runtime (rt : String → Option (String → Bool)) :
    ∀ (ps : List Parameter) (provided : List (String × JVal)) (r : ValidationResult)
      (e : JsError), validatePathParameters rt ps provided r = .error e →
      (∃ m, e = .typeError m) ∨ (∃ m, e = .syntaxError m) := by
  intro ps
  induction ps with
  | nil =>
    intro provided r e h
    simp [validatePathParameters] at h
  | cons p ps ih =>
    intro provided r e h
    unfold validatePathParameters at h
    cases hlook : assocLookup provided p.name with
    | none =>
      simp only [hlook] at h
      exact ih _ _ _ h
    | some v =>
      simp only [hlook] at h
      cases hsch : p.schema with
      | none =>
        simp only [hsch] at h
        exact ih _ _ _ h
      | some s =>
        simp only [hsch] at h
        cases hvas : validateAgainstSchema rt v s with
        | error e' =>
          simp only [hvas] at h
          injection h with h
          subst h
          exact validateAgainstSchema_error_runtime _ _ _ _ hvas
        | ok errs =>
          simp only [hvas] at h
          exact ih _ _ _ h

theorem validateQueryParameters_error_runtime (rt : String → Option (String → Bool)) :
    ∀ (ps : List Parameter) (provided : List (String × JVal)) (r : ValidationResult)
      (e : JsError), validateQueryParameters rt ps provided r = .error e →
      (∃ m, e = .typeError m) ∨ (∃ m, e = .syntaxError m) := by
  intro ps
  induction ps with
  | nil =>
    intro provided r e h
    simp [validateQueryParameters] at h
  | cons p ps ih =>
    intro provided r e h
    unfold validateQueryParameters at h
    cases hlook : assocLookup provided p.name with
    | none =>
      simp only [hlook] at h
      exact ih _ _ _ h
    | some v =>
      simp only [hlook] at h
      cases hsch : p.schema with
      | none =>
        simp only [hsch] at h
        exact ih _ _ _ h
      | some s =>
        simp only [hsch] at h
        cases hvas : validateAgainstSchema rt v s with
        | error e' =>
          simp only [hvas] at h
          injection h with h
          subst h
          exact validateAgainstSchema_error_runtime _ _ _ _ hvas
        | ok errs =>
          simp only [hvas] at h
          exact ih _ _ _ h

theorem validateHeaderParameters_error_runtime (rt : String → Option (String → Bool)) :
    ∀ (ps : List Parameter) (provided : List (String × JVal)) (r : ValidationResult)
      (e : JsError), validateHeaderParameters rt ps provided r = .error e →
      (∃ m, e = .typeError m) ∨ (∃ m, e = .syntaxError m) := by
  intro ps
  induction ps with
  | nil =>
    intro provided r e h
    simp [validateHeaderParameters] at h
  | cons p ps ih =>
    intro provided r e h
    unfold validateHeaderParameters at h
    cases hlook : assocLookup (lowerHeaders provided) (jsToLower p.name) with
    | none =>
      simp only [hlook] at h
      exact ih _ _ _ h
    | some v =>
      simp only [hlook] at h
      cases hsch : p.schema with
      | none =>
        simp only [hsch] at h
        exact ih _ _ _ h
      | some s =>
        simp only [hsch] at h
        cases hvas : validateAgainstSchema rt v s with
        | error e' =>
          simp only [hvas] at h
          injection h with h
          subst h
          exact validateAgainstSchema_error_runtime _ _ _ _ hvas
        | ok errs =>
          simp only [hvas] at h
          exact ih _ _ _ h

theorem validateRequestBody_error_runtime (rt : String → Option (String → Bool)) (rb : RequestBody)
    (pb : Option JVal) (spec : OpenAPISpec) (r : ValidationResult) (e : JsError)
    (h : validateRequestBody rt rb pb spec r = .error e) :
    (∃ m, e = .typeError m) ∨ (∃ m, e = .syntaxError m) := by
  unfold validateRequestBody at h
  split at h
  · simp at h
  · split at h
    · simp at h
    · cases hc : rb.content with
      | none =>
        simp only [hc] at h
        exact Except.noConfusion h
      | some content =>
        simp only [hc] at h
        cases hj : assocLookup content "application/json" with
        | none =>
          simp only [hj] at h
          exact Except.noConfusion h
        | some jsonContent =>
          simp only [hj] at h
          cases hs : jsonContent.schema with
          | none =>
            simp only [hs] at h
            exact Except.noConfusion h
          | some schema0 =>
            simp only [hs] at h
            split at h
            · cases hres : resolveRef (schema0.core.ref.getD "") spec with
              | none =>
                simp only [hres] at h
                exact Except.noConfusion h
              | some schema1 =>
                simp only [hres] at h
                cases hvas : validateAgainstSchema rt (pb.getD JVal.vNull) schema1 with
                | error e' =>
                  simp only [hvas] at h
                  injection h with h
                  subst h
                  exact validateAgainstSchema_error_runtime _ _ _ _ hvas
                | ok errs =>
                  simp only [hvas] at h
                  exact Except.noConfusion h
            · cases hvas : validateAgainstSchema rt (pb.getD JVal.vNull) schema0 with
              | error e' =>
                simp only [hvas] at h
                injection h with h
                subst h
                exact validateAgainstSchema_error_runtime _ _ _ _ hvas
              | ok errs =>
                simp only [hvas] at h
                exact Except.noConfusion h

theorem assocLookup_assocSet {β : Type} (l : List (String × β)) (k k' : String) (v : β) :
    assocLookup (assocSet l k v) k' = if k = k' then some v else assocLookup l k' := by
  induction l with
  | nil => simp [assocSet, assocLookup]
  | cons kv l ih =>
    by_cases hk : kv.1 = k
    · simp only [assocSet, if_pos hk, assocLookup]
      by_cases h : k = k'
      · rw [if_pos h, if_pos h]
      · rw [if_neg h, if_neg h]
        rw [if_neg (fun hc => h (hk.symm.trans hc))]
    · simp only [assocSet, if_neg hk, assocLookup]
      by_cases h2 : kv.1 = k'
      · have hkk : k ≠ k' := fun hc => hk (hc ▸ h2)
        rw [if_pos h2, if_neg hkk, if_pos h2]
      · rw [if_neg h2, if_neg h2, ih]

theorem lowerHeaders_lookup (n : String) :
    ∀ (hs acc : List (String × JVal)),
      assocLookup (hs.foldl (fun acc kv => assocSet acc (jsToLower kv.1) kv.2) acc) n =
        (match hs.reverse.find? (fun kv => jsToLower kv.1 == n) with
         | some kv => some kv.2
         | none => assocLookup acc n) := by
  intro hs
  induction hs with
  | nil => intro acc; rfl
  | cons kv rest ih =>
    intro acc
    simp only [List.foldl_cons]
    rw [ih]
    simp only [List.reverse_cons]
    rw [List.find?_append]
    cases hf : rest.reverse.find? (fun kv => jsToLower kv.1 == n) with
    | some kv' => simp [Option.or]
    | none =>
      by_cases hp : (jsToLower kv.1 == n) = true
      · simp only [Option.none_or, List.find?_cons, hp]
        rw [assocLookup_assocSet]
        rw [if_pos (beq_iff_eq.mp hp)]
      · simp only [Bool.not_eq_true] at hp
        simp only [Option.none_or, List.find?_cons, hp, List.find?_nil]
        rw [assocLookup_assocSet]
        rw [if_neg (fun hc => by simp [hc] at hp)]

/-- C3: the schema validator checks only the immediate node's own
constraints. Its result is invariant under replacing the `properties` map
and the `items` sub-schema, so object property values and array element
values are never validated against their declared sub-schemas and those
sub-schemas never contribute errors to the returned list. -/
theorem C3_schema_validation_is_shallow (rt : String → Option (String → Bool)) (value : JVal)
    (core : SchemaCore) (props props' : Option (List (String × Schema)))
    (items items' : Option Schema) :
    validateAgainstSchema rt value (.mk core props items) =
      validateAgainstSchema rt value (.mk core props' items') := rfl

/-- C7: reference resolution terminates on every document — `resolveNode`
is a total function by well-founded recursion — and a reference whose
resolution path revisits a name already being expanded is not expanded
further but preserved as a back-reference; concretely, a directly
self-referential component resolves to a finite tree holding the
back-reference. -/
theorem C7_resolution_terminates_with_backreferences :
    (∀ (comps : List (String × RefNode)) (visited : List String) (name : String),
        visited.contains name = true →
        resolveNode comps visited (.ref name) = .ref name)
    ∧ resolveNode [("A", .obj [("self", .ref "A")])] [] (.ref "A") =
        .obj [("self", .ref "A")] := by
  constructor
  · intro comps visited name h
    unfold resolveNode
    rw [dif_pos h]
  · simp [resolveNode, resolveFields, assocLookup]

/-- Witness for C7: the back-reference equation applied at a concrete
visited reference. -/
theorem C7_witness : resolveNode [] ["B"] (.ref "B") = .ref "B" :=
  C7_resolution_terminates_with_backreferences.1 [] ["B"] "B" (by rfl)

/-- C4: `CacheManager.get` returns an entry only while the entry is fresh
(`now - timestamp < ttl`, with `timestamp` the write instant); the entry it
returns (and the copy it may promote into the memory tier) keeps its
original `timestamp`, so a successful get never refreshes the write time;
and once every stored entry for the key has aged to or past the TTL, get
returns absent. -/
theorem C4_cacheGet_fresh_only (ttl now : Int) (url : String) (st : CacheState) :
    (∀ e st', cacheGet ttl now url st = (some e, st') →
        now - e.timestamp < ttl
        ∧ (assocLookup st.memory url = some e ∨ assocLookup st.disk url = some e)
        ∧ assocLookup st'.memory url = some e)
    ∧ ((∀ e, assocLookup st.memory url = some e → ttl ≤ now - e.timestamp) →
       (∀ e, assocLookup st.disk url = some e → ttl ≤ now - e.timestamp) →
       (cacheGet ttl now url st).1 = none) := by
  constructor
  · intro e st' h
    exact cacheGet_some_spec ttl now url st e st' h
  · intro hm hd
    exact cacheGet_none_of_stale ttl now url st hm hd

/-- Witness for C4: a fresh entry is returned intact at `now = 5`, and the
same entry is reported absent at `now = 20` (TTL 10, written at 0). -/
theorem C4_witness :
    ((5 : Int) - cacheEntry0.timestamp < 10
      ∧ (assocLookup stFresh.memory "u" = some cacheEntry0
          ∨ assocLookup stFresh.disk "u" = some cacheEntry0)
      ∧ assocLookup stFresh.memory "u" = some cacheEntry0)
    ∧ (cacheGet 10 20 "u" stStale).1 = none := by
  constructor
  · exact (C4_cacheGet_fresh_only 10 5 "u" stFresh).1 cacheEntry0 stFresh (by rfl)
  · refine (C4_cacheGet_fresh_only 10 20 "u" stStale).2 ?_ ?_
    · intro e he
      simp [stFresh, stStale, assocLookup] at he
      subst he
      decide
    · intro e he
      simp [stFresh, stStale, assocLookup] at he
      subst he
      decide

/-- C8: storing a document with `CacheManager.set` and immediately reading
it back with `get` (any positive TTL) yields the entry just stored: the
same document and the same revalidation tokens, with `timestamp` the write
instant `now`. -/
theorem C8_set_then_get_roundtrip (ttl now : Int) (url : String) (spec : OpenAPISpec)
    (etag lastModified : Option String) (st : CacheState) (h : 0 < ttl) :
    (cacheGet ttl now url (cacheSet now url spec etag lastModified st)).1 =
      some ⟨spec, etag, lastModified, now, url⟩ := by
  unfold cacheGet cacheSet
  simp only [assocLookup_assocSet_self]
  rw [if_pos (by omega)]

/-- Witness for C8: a concrete set-then-get round trip. -/
theorem C8_witness :
    (cacheGet 1 7 "u" (cacheSet 7 "u" spec0 (some "W/xyz") none stFresh)).1 =
      some ⟨spec0, some "W/xyz", none, 7, "u"⟩ :=
  C8_set_then_get_roundtrip 1 7 "u" spec0 (some "W/xyz") none stFresh (by decide)

/-- C5: the retry policy of `fetchWithRetry`. When every attempt fails
transiently (network-level failure or non-4xx status), the loop performs
exactly the configured number of attempts and the back-off delays slept
between consecutive attempts (`retryDelay * 2 ** attempt`) are strictly
increasing, after which the failure is thrown. When some attempt observes
a 4xx client error (earlier attempts transient), that error propagates
immediately: that attempt is the last, and no delay is slept after it. -/
theorem C5_retry_policy (net : Nat → AttemptRes) (n d : Nat) (hd : 0 < d) :
    ((∀ i, i < n → isTransient (net i) = true) →
       (∃ e, (fetchWithRetry net n d).1 = .error e)
       ∧ (fetchWithRetry net n d).2.1 = n
       ∧ (fetchWithRetry net n d).2.2 = (List.range (n - 1)).map (fun i => d * 2 ^ i)
       ∧ (fetchWithRetry net n d).2.2.Pairwise (· < ·))
    ∧ (∀ k err, k < n → (∀ i, i < k → isTransient (net i) = true) →
        net k = .failure err → is4xx err = true →
        (fetchWithRetry net n d).1 = .error err
        ∧ (fetchWithRetry net n d).2.1 = k + 1
        ∧ (fetchWithRetry net n d).2.2 = (List.range k).map (fun i => d * 2 ^ i)) := by
  constructor
  · intro htr
    have h := fetchWithRetryGo_all_transient net d n 0 none
      (fun i h1 h2 => htr i (by omega))
    refine ⟨h.1, h.2.1, ?_, ?_⟩
    · rw [List.range_eq_range']
      exact h.2.2
    · rw [show (fetchWithRetry net n d).2.2 =
          (List.range (n - 1)).map (fun i => d * 2 ^ i) by
            rw [List.range_eq_range']; exact h.2.2]
      have hp : (List.range (n - 1)).Pairwise (· < ·) := List.pairwise_lt_range _
      refine hp.map _ (fun a b hab => ?_)
      have h2 : (2 : Nat) ^ a < 2 ^ b := Nat.pow_lt_pow_right (by norm_num) hab
      exact mul_lt_mul_of_pos_left h2 hd
  · intro k err hk htr hnet h4
    have h := fetchWithRetryGo_4xx net d k n 0 none err hk
      (fun i h1 h2 => htr i (by omega)) (by simpa using hnet) h4
    unfold fetchWithRetry
    rw [h]
    exact ⟨rfl, rfl, by rw [List.range_eq_range']⟩

/-- Witness for C5: three attempts against an always-down network make
exactly three calls with strictly increasing delays 1000, 2000 and end in
a thrown failure. -/
theorem C5_witness :
    (∃ e, (fetchWithRetry netAllDown 3 1000).1 = .error e)
    ∧ (fetchWithRetry netAllDown 3 1000).2.1 = 3
    ∧ (fetchWithRetry netAllDown 3 1000).2.2 =
        (List.range (3 - 1)).map (fun i => 1000 * 2 ^ i)
    ∧ (fetchWithRetry netAllDown 3 1000).2.2.Pairwise (· < ·) :=
  (C5_retry_policy netAllDown 3 1000 (by decide)).1 (by decide)

theorem errExtends_refl (r : ValidationResult) : errExtends r r :=
  ⟨[], by simp⟩

theorem errExtends_trans {a b c : ValidationResult} (h1 : errExtends a b)
    (h2 : errExtends b c) : errExtends a c := by
  obtain ⟨t1, h1⟩ := h1
  obtain ⟨t2, h2⟩ := h2
  exact ⟨t1 ++ t2, by rw [h2, h1, List.append_assoc]⟩

theorem errExtends_pushErr (r : ValidationResult) (loc fld msg : String) :
    errExtends r (pushErr r loc fld msg) :=
  ⟨[⟨loc, fld, msg⟩], rfl⟩

theorem errExtends_pushWarn (r : ValidationResult) (w : String) :
    errExtends r (pushWarn r w) :=
  ⟨[], by simp [pushWarn]⟩

theorem errExtends_if_pushErr (c : Prop) [Decidable c] (r : ValidationResult)
    (loc fld msg : String) : errExtends r (if c then pushErr r loc fld msg else r) := by
  split
  · exact errExtends_pushErr r loc fld msg
  · exact errExtends_refl r

theorem errExtends_if_pushWarn (c : Prop) [Decidable c] (r : ValidationResult)
    (w : String) : errExtends r (if c then pushWarn r w else r) := by
  split
  · exact errExtends_pushWarn r w
  · exact errExtends_refl r

theorem errors_pushSchemaErrs (r : ValidationResult) (loc fld : String)
    (errs : List String) :
    (pushSchemaErrs r loc fld errs).errors =
      r.errors ++ errs.map (fun m => (⟨loc, fld, m⟩ : VError)) := by
  induction errs generalizing r with
  | nil => simp [pushSchemaErrs]
  | cons m ms ih =>
    show (pushSchemaErrs (pushErr r loc fld m) loc fld ms).errors = _
    rw [ih]
    simp [pushErr]

theorem errExtends_pushSchemaErrs (r : ValidationResult) (loc fld : String)
    (errs : List String) : errExtends r (pushSchemaErrs r loc fld errs) :=
  ⟨errs.map (fun m => (⟨loc, fld, m⟩ : VError)), errors_pushSchemaErrs r loc fld errs⟩

theorem validatePathParameters_errors_extend (rt : String → Option (String → Bool)) :
    ∀ (ps : List Parameter) (provided : List (String × JVal)) (r r2 : ValidationResult),
      validatePathParameters rt ps provided r = .ok r2 → errExtends r r2 := by
  intro ps
  induction ps with
  | nil =>
    intro provided r r2 h
    simp [validatePathParameters] at h
    exact h ▸ errExtends_refl r
  | cons p ps ih =>
    intro provided r r2 h
    unfold validatePathParameters at h
    cases hlook : assocLookup provided p.name with
    | none =>
      simp only [hlook] at h
      exact errExtends_trans (errExtends_if_pushErr _ _ _ _ _) (ih _ _ _ h)
    | some v =>
      simp only [hlook] at h
      cases hsch : p.schema with
      | none =>
        simp only [hsch] at h
        exact errExtends_trans (errExtends_if_pushErr _ _ _ _ _)
          (errExtends_trans (errExtends_if_pushWarn _ _ _) (ih _ _ _ h))
      | some s =>
        simp only [hsch] at h
        cases hvas : validateAgainstSchema rt v s with
        | error e1 =>
          simp only [hvas] at h
          exact Except.noConfusion h
        | ok errs =>
          simp only [hvas] at h
          exact errExtends_trans (errExtends_if_pushErr _ _ _ _ _)
            (errExtends_trans (errExtends_pushSchemaErrs _ _ _ _)
              (errExtends_trans (errExtends_if_pushWarn _ _ _) (ih _ _ _ h)))

theorem validateQueryParameters_errors_extend (rt : String → Option (String → Bool)) :
    ∀ (ps : List Parameter) (provided : List (String × JVal)) (r r2 : ValidationResult),
      validateQueryParameters rt ps provided r = .ok r2 → errExtends r r2 := by
  intro ps
  induction ps with
  | nil =>
    intro provided r r2 h
    simp [validateQueryParameters] at h
    exact h ▸ errExtends_refl r
  | cons p ps ih =>
    intro provided r r2 h
    unfold validateQueryParameters at h
    cases hlook : assocLookup provided p.name with
    | none =>
      simp only [hlook] at h
      exact errExtends_trans (errExtends_if_pushErr _ _ _ _ _) (ih _ _ _ h)
    | some v =>
      simp only [hlook] at h
      cases hsch : p.schema with
      | none =>
        simp only [hsch] at h
        exact errExtends_trans (errExtends_if_pushErr _ _ _ _ _)
          (errExtends_trans (errExtends_if_pushWarn _ _ _)
            (errExtends_trans (errExtends_if_pushErr _ _ _ _ _) (ih _ _ _ h)))
      | some s =>
        simp only [hsch] at h
        cases hvas : validateAgainstSchema rt v s with
        | error e1 =>
          simp only [hvas] at h
          exact Except.noConfusion h
        | ok errs =>
          simp only [hvas] at h
          exact errExtends_trans (errExtends_if_pushErr _ _ _ _ _)
            (errExtends_trans (errExtends_pushSchemaErrs _ _ _ _)
              (errExtends_trans (errExtends_if_pushWarn _ _ _)
                (errExtends_trans (errExtends_if_pushErr _ _ _ _ _) (ih _ _ _ h))))

theorem validateHeaderParameters_errors_extend (rt : String → Option (String → Bool)) :
    ∀ (ps : List Parameter) (provided : List (String × JVal)) (r r2 : ValidationResult),
      validateHeaderParameters rt ps provided r = .ok r2 → errExtends r r2 := by
  intro ps
  induction ps with
  | nil =>
    intro provided r r2 h
    simp [validateHeaderParameters] at h
    exact h ▸ errExtends_refl r
  | cons p ps ih =>
    intro provided r r2 h
    unfold validateHeaderParameters at h
    cases hlook : assocLookup (lowerHeaders provided) (jsToLower p.name) with
    | none =>
      simp only [hlook] at h
      exact errExtends_trans (errExtends_if_pushErr _ _ _ _ _) (ih _ _ _ h)
    | some v =>
      simp only [hlook] at h
      cases hsch : p.schema with
      | none =>
        simp only [hsch] at h
        exact errExtends_trans (errExtends_if_pushErr _ _ _ _ _)
          (errExtends_trans (errExtends_if_pushWarn _ _ _) (ih _ _ _ h))
      | some s =>
        simp only [hsch] at h
        cases hvas : validateAgainstSchema rt v s with
        | error e1 =>
          simp only [hvas] at h
          exact Except.noConfusion h
        | ok errs =>
          simp only [hvas] at h
          exact errExtends_trans (errExtends_if_pushErr _ _ _ _ _)
            (errExtends_trans (errExtends_pushSchemaErrs _ _ _ _)
              (errExtends_trans (errExtends_if_pushWarn _ _ _) (ih _ _ _ h)))

theorem validateRequestBody_errors_extend (rt : String → Option (String → Bool))
    (rb : RequestBody) (pb : Option JVal) (spec : OpenAPISpec) (r r2 : ValidationResult)
    (h : validateRequestBody rt rb pb spec r = .ok r2) : errExtends r r2 := by
  unfold validateRequestBody at h
  split at h
  · injection h with h
    exact h ▸ errExtends_pushErr _ _ _ _
  · split at h
    · injection h with h
      exact h ▸ errExtends_refl r
    · cases hc : rb.content with
      | none =>
        simp only [hc] at h
        injection h with h
        exact h ▸ errExtends_refl r
      | some content =>
        simp only [hc] at h
        cases hj : assocLookup content "application/json" with
        | none =>
          simp only [hj] at h
          injection h with h
          exact h ▸ errExtends_refl r
        | some jsonContent =>
          simp only [hj] at h
          cases hs : jsonContent.schema with
          | none =>
            simp only [hs] at h
            injection h with h
            exact h ▸ errExtends_refl r
          | some schema0 =>
            simp only [hs] at h
            split at h
            · cases hres : resolveRef (schema0.core.ref.getD "") spec with
              | none =>
                simp only [hres] at h
                injection h with h
                exact h ▸ errExtends_pushWarn _ _
              | some schema1 =>
                simp only [hres] at h
                cases hvas : validateAgainstSchema rt (pb.getD JVal.vNull) schema1 with
                | error e1 =>
                  simp only [hvas] at h
                  exact Except.noConfusion h
                | ok errs =>
                  simp only [hvas] at h
                  injection h with h
                  exact h ▸ errExtends_pushSchemaErrs _ _ _ _
            · cases hvas : validateAgainstSchema rt (pb.getD JVal.vNull) schema0 with
              | error e1 =>
                simp only [hvas] at h
                exact Except.noConfusion h
              | ok errs =>
                simp only [hvas] at h
                injection h with h
                exact h ▸ errExtends_pushSchemaErrs _ _ _ _

/-- C6: in every ValidationResult produced by `execute`, `valid` is true
iff `errors` is empty; the error list accumulates across all checked
locations rather than stopping at the first failure — each of the four
location validators only appends to the error list it receives (it never
discards or truncates earlier errors, and it still runs after earlier
failures), so a request violating both a query declaration and the body
schema reports both errors in one result; and validating the body
`\x7bemail: "a@b.com"\x7d` against a schema requiring `email` and `name`
yields exactly one error reporting `name` missing, with `valid = false`. -/
theorem C6_valid_iff_errors_empty :
    (∀ (rt : String → Option (String → Bool)) (args : ValidateRequestArgs)
        (spec? : Option OpenAPISpec) (r : ValidationResult),
        ValidateRequestTool.execute rt args spec? = .ok r →
        (r.valid = true ↔ r.errors = []))
    ∧ (∀ (rt : String → Option (String → Bool)) (ps : List Parameter)
        (provided : List (String × JVal)) (r r2 : ValidationResult),
        validatePathParameters rt ps provided r = .ok r2 →
        ∃ t, r2.errors = r.errors ++ t)
    ∧ (∀ (rt : String → Option (String → Bool)) (ps : List Parameter)
        (provided : List (String × JVal)) (r r2 : ValidationResult),
        validateQueryParameters rt ps provided r = .ok r2 →
        ∃ t, r2.errors = r.errors ++ t)
    ∧ (∀ (rt : String → Option (String → Bool)) (ps : List Parameter)
        (provided : List (String × JVal)) (r r2 : ValidationResult),
        validateHeaderParameters rt ps provided r = .ok r2 →
        ∃ t, r2.errors = r.errors ++ t)
    ∧ (∀ (rt : String → Option (String → Bool)) (rb : RequestBody) (pb : Option JVal)
        (spec : OpenAPISpec) (r r2 : ValidationResult),
        validateRequestBody rt rb pb spec r = .ok r2 →
        ∃ t, r2.errors = r.errors ++ t)
    ∧ ValidateRequestTool.execute rtTrue argsC6b (some specC6b) =
        .ok ⟨false, [⟨"query", "q", "Required query parameter \x27q\x27 is missing"⟩,
                     ⟨"body", "body", "Missing required property: name"⟩], []⟩
    ∧ ValidateRequestTool.execute rtTrue argsC6 (some specC6) =
        .ok ⟨false, [⟨"body", "body", "Missing required property: name"⟩], []⟩ := by
  refine ⟨?_, validatePathParameters_errors_extend, validateQueryParameters_errors_extend,
    validateHeaderParameters_errors_extend,
    fun rt rb pb spec r r2 h => validateRequestBody_errors_extend rt rb pb spec r r2 h,
    rfl, rfl⟩
  intro rt args spec? r h
  unfold ValidateRequestTool.execute at h
  cases spec? with
  | none => exact Except.noConfusion h
  | some spec =>
    cases hpi : assocLookup spec.paths args.path with
    | none =>
      simp only [hpi] at h
      exact Except.noConfusion h
    | some pathItem =>
      simp only [hpi] at h
      by_cases hop : (pathItem.jsIndex (jsToLower args.method)).truthy = true
      · rw [if_neg (fun hc => hc hop)] at h
        split at h
        · exact Except.noConfusion h
        · split at h
          · exact Except.noConfusion h
          · split at h
            · exact Except.noConfusion h
            · split at h
              · exact Except.noConfusion h
              · injection h with h
                subst h
                simp [List.length_eq_zero]
      · rw [if_pos hop] at h
        exact Except.noConfusion h

/-- Witness for C6: the valid-iff-empty conjunct applied at the
two-location aggregation example. -/
theorem C6_witness :
    ((false : Bool) = true ↔
      ([⟨"query", "q", "Required query parameter \x27q\x27 is missing"⟩,
        ⟨"body", "body", "Missing required property: name"⟩] : List VError) = []) :=
  C6_valid_iff_errors_empty.1 rtTrue argsC6b (some specC6b)
    ⟨false, [⟨"query", "q", "Required query parameter \x27q\x27 is missing"⟩,
             ⟨"body", "body", "Missing required property: name"⟩], []⟩
    C6_valid_iff_errors_empty.2.2.2.2.2.1

/-- Counterexample to C2: a request for a path that is not declared in the
document makes `execute` throw (`Path not found`) instead of returning a
ValidationResult, so not every input yields validation failures as data. -/
theorem C2_counterexample_unknown_path_throws :
    ValidateRequestTool.execute rtTrue ⟨"/a", "GET", none, none, none⟩ (some spec0) =
      .error (.thrown "Path not found: /a") := rfl

/-- C2 (amended): validation failures are returned as data inside the
ValidationResult; `execute` throws only when no specification is loaded,
the path is not found, the lowercased method string indexes no truthy
property of the path item (in particular when the method's operation is
not declared), schema validation raises a JS `TypeError` (a `null` value
checked against an object schema), or compiling a declared pattern raises
a `SyntaxError`. A method string reaching a truthy non-operation property
(such as `SUMMARY`) does not throw: the request is validated against an
operation with no declarations and a result is returned. -/
theorem C2_execute_error_classification :
    (∀ (rt : String → Option (String → Bool)) (args : ValidateRequestArgs)
        (spec? : Option OpenAPISpec) (e : JsError),
        ValidateRequestTool.execute rt args spec? = .error e →
        e = .thrown "No OpenAPI specification loaded"
        ∨ e = .thrown s!"Path not found: {args.path}"
        ∨ e = .thrown s!"Method {args.method} not found for path {args.path}"
        ∨ (∃ m, e = .typeError m)
        ∨ (∃ m, e = .syntaxError m))
    ∧ ValidateRequestTool.execute rtTrue ⟨"/s", "SUMMARY", none, none, none⟩
        (some specSummary) = .ok ⟨true, [], []⟩ := by
  constructor
  · intro rt args spec? e h
    unfold ValidateRequestTool.execute at h
    cases spec? with
    | none =>
      injection h with h
      exact Or.inl h.symm
    | some spec =>
      cases hpi : assocLookup spec.paths args.path with
      | none =>
        simp only [hpi] at h
        injection h with h
        exact Or.inr (Or.inl h.symm)
      | some pathItem =>
        simp only [hpi] at h
        by_cases hop : (pathItem.jsIndex (jsToLower args.method)).truthy = true
        · rw [if_neg (fun hc => hc hop)] at h
          split at h
          · rename_i e1 heq
            injection h with h
            subst h
            exact Or.inr (Or.inr (Or.inr
              (validatePathParameters_error_runtime rt _ _ _ _ heq)))
          · split at h
            · rename_i e1 heq
              injection h with h
              subst h
              exact Or.inr (Or.inr (Or.inr
                (validateQueryParameters_error_runtime rt _ _ _ _ heq)))
            · split at h
              · rename_i e1 heq
                injection h with h
                subst h
                exact Or.inr (Or.inr (Or.inr
                  (validateHeaderParameters_error_runtime rt _ _ _ _ heq)))
              · split at h
                · rename_i e1 heq
                  injection h with h
                  subst h
                  split at heq
                  · exact Or.inr (Or.inr (Or.inr
                      (validateRequestBody_error_runtime rt _ _ _ _ _ heq)))
                  · exact Or.inr (Or.inr (Or.inr (by simp at heq)))
                · exact Except.noConfusion h
        · rw [if_pos hop] at h
          injection h with h
          exact Or.inr (Or.inr (Or.inl h.symm))
  · rfl

/-- Witness for C2 (amended): the classification applied at the concrete
unknown-path input. -/
theorem C2_witness :
    JsError.thrown "Path not found: /a" = .thrown "No OpenAPI specification loaded"
    ∨ JsError.thrown "Path not found: /a" = .thrown "Path not found: /a"
    ∨ JsError.thrown "Path not found: /a" = .thrown "Method GET not found for path /a"
    ∨ (∃ m, JsError.thrown "Path not found: /a" = .typeError m)
    ∨ (∃ m, JsError.thrown "Path not found: /a" = .syntaxError m) :=
  C2_execute_error_classification.1 rtTrue ⟨"/a", "GET", none, none, none⟩ (some spec0)
    (.thrown "Path not found: /a") (by rfl)

/-- C9: header parameter matching is case-insensitive. A declared header
parameter named `N` is looked up in the lowercased copy of the provided
headers under `N` lowercased, so a value is found iff some provided key
equals `N` up to letter case; the value found is one provided under such a
key (the last, since later keys overwrite earlier ones in the lowercasing
fold); and `validateHeaderParameters` emits its missing-header error
exactly when the parameter is required and no such key exists, validating
the found value against the declared schema otherwise. -/
theorem C9_header_matching_case_insensitive (rt : String → Option (String → Bool)) (p : Parameter)
    (hs : List (String × JVal)) (r : ValidationResult) :
    ((assocLookup (lowerHeaders hs) (jsToLower p.name)).isSome = true ↔
       ∃ kv, kv ∈ hs ∧ jsToLower kv.1 = jsToLower p.name)
    ∧ (∀ v, assocLookup (lowerHeaders hs) (jsToLower p.name) = some v →
        ∃ k, (k, v) ∈ hs ∧ jsToLower k = jsToLower p.name)
    ∧ validateHeaderParameters rt [p] hs r =
        (match assocLookup (lowerHeaders hs) (jsToLower p.name) with
         | none =>
           .ok (if optTruthy p.required then
                  pushErr r "header" p.name s!"Required header \x27{p.name}\x27 is missing"
                else r)
         | some v =>
           match p.schema with
           | some s =>
             (match validateAgainstSchema rt v s with
              | .error e => .error e
              | .ok errs =>
                .ok (if optTruthy p.deprecated then
                       pushWarn (pushSchemaErrs r "header" p.name errs)
                         s!"Header \x27{p.name}\x27 is deprecated"
                     else pushSchemaErrs r "header" p.name errs))
           | none =>
             .ok (if optTruthy p.deprecated then
                    pushWarn r s!"Header \x27{p.name}\x27 is deprecated"
                  else r)) := by
  have hfold := lowerHeaders_lookup (jsToLower p.name) hs []
  refine ⟨?_, ?_, ?_⟩
  · rw [show assocLookup (lowerHeaders hs) (jsToLower p.name) = _ from hfold]
    cases hf : hs.reverse.find? (fun kv => jsToLower kv.1 == jsToLower p.name) with
    | some kv =>
      constructor
      · intro _
        have hp := @List.find?_some _ _ _ _ hf
        exact ⟨kv, List.mem_reverse.mp (List.mem_of_find?_eq_some hf), beq_iff_eq.mp hp⟩
      · intro _
        rfl
    | none =>
      simp only [assocLookup, Option.isSome_none]
      constructor
      · intro hc
        exact absurd hc (by simp)
      · rintro ⟨kv, hmem, heq⟩
        have := List.find?_eq_none.mp hf kv (List.mem_reverse.mpr hmem)
        exact absurd (beq_iff_eq.mpr heq) this
  · intro v hv
    rw [show assocLookup (lowerHeaders hs) (jsToLower p.name) = _ from hfold] at hv
    cases hf : hs.reverse.find? (fun kv => jsToLower kv.1 == jsToLower p.name) with
    | some kv =>
      rw [hf] at hv
      injection hv with hv
      have hp := @List.find?_some _ _ _ _ hf
      refine ⟨kv.1, ?_, beq_iff_eq.mp hp⟩
      rw [← hv]
      exact List.mem_reverse.mp (List.mem_of_find?_eq_some hf)
    | none =>
      rw [hf] at hv
      exact absurd hv (by simp [assocLookup])
  · unfold validateHeaderParameters
    cases hlook : assocLookup (lowerHeaders hs) (jsToLower p.name) with
    | none =>
      simp [validateHeaderParameters, hlook]
    | some v =>
      simp only [hlook]
      cases hsch : p.schema with
      | none =>
        simp [validateHeaderParameters, hsch, Option.isNone_some]
      | some s =>
        cases hvas : validateAgainstSchema rt v s with
        | error e1 =>
          simp [validateHeaderParameters, hsch, hvas]
        | ok errs =>
          simp [validateHeaderParameters, hsch, hvas]

/-- Witness for C9: the provided key `x-TOKEN` matches the declared header
`X-Token` up to case and its value is the one found. -/
theorem C9_witness :
    ∃ k, (k, JVal.vStr "t") ∈ [("x-TOKEN", JVal.vStr "t")]
      ∧ jsToLower k = jsToLower "X-Token" :=
  (C9_header_matching_case_insensitive rtTrue
      ⟨"X-Token", "header", some true, none, none, none⟩
      [("x-TOKEN", JVal.vStr "t")] emptyResult).2.1 (JVal.vStr "t") (by rfl)

/-- C10: a declared path parameter is treated as required unless its
`required` field is explicitly `false` (an absent field means required,
since the source tests `param.required !== false`), whereas a declared
query parameter is required only when `required` is explicitly `true`
(`param.required && ...`, so an absent field means optional). The
missing-parameter error is produced exactly under these conditions when
the parameter is absent, and never when it is present. -/
theorem C10_required_field_defaults (rt : String → Option (String → Bool)) (p : Parameter)
    (provided : List (String × JVal)) (r : ValidationResult) :
    (assocLookup provided p.name = none →
      validatePathParameters rt [p] provided r =
        .ok (if p.required = none ∨ p.required = some true then
               pushErr r "path" p.name s!"Required path parameter \x27{p.name}\x27 is missing"
             else r)
      ∧ validateQueryParameters rt [p] provided r =
        .ok (if p.required = some true then
               pushErr r "query" p.name s!"Required query parameter \x27{p.name}\x27 is missing"
             else r))
    ∧ (∀ v, assocLookup provided p.name = some v →
      validatePathParameters rt [p] provided r =
        (match p.schema with
         | some s =>
           (match validateAgainstSchema rt v s with
            | .error e => .error e
            | .ok errs =>
              .ok (if optTruthy p.deprecated then
                     pushWarn (pushSchemaErrs r "path" p.name errs)
                       s!"Path parameter \x27{p.name}\x27 is deprecated"
                   else pushSchemaErrs r "path" p.name errs))
         | none =>
           .ok (if optTruthy p.deprecated then
                  pushWarn r s!"Path parameter \x27{p.name}\x27 is deprecated"
                else r))
      ∧ validateQueryParameters rt [p] provided r =
        (match p.schema with
         | some s =>
           (match validateAgainstSchema rt v s with
            | .error e => .error e
            | .ok errs =>
              .ok (
                let r2 := pushSchemaErrs r "query" p.name errs
                let r3 := if optTruthy p.deprecated then
                    pushWarn r2 s!"Query parameter \x27{p.name}\x27 is deprecated"
                  else r2
                if ¬ optTruthy p.allowEmptyValue ∧ jsIsEmptyString v then
                  pushErr r3 "query" p.name s!"Query parameter \x27{p.name}\x27 cannot be empty"
                else r3))
         | none =>
           .ok (
             let r3 := if optTruthy p.deprecated then
                 pushWarn r s!"Query parameter \x27{p.name}\x27 is deprecated"
               else r
             if ¬ optTruthy p.allowEmptyValue ∧ jsIsEmptyString v then
               pushErr r3 "query" p.name s!"Query parameter \x27{p.name}\x27 cannot be empty"
             else r3))) := by
  constructor
  · intro hl
    constructor
    · rcases hreq : p.required with _ | b
      · simp [validatePathParameters, hl, hreq]
      · cases b
        · simp [validatePathParameters, hl, hreq]
        · simp [validatePathParameters, hl, hreq]
    · rcases hreq : p.required with _ | b
      · simp [validateQueryParameters, hl, hreq, optTruthy]
      · cases b
        · simp [validateQueryParameters, hl, hreq, optTruthy]
        · simp [validateQueryParameters, hl, hreq, optTruthy]
  · intro v hv
    constructor
    · unfold validatePathParameters
      cases hsch : p.schema with
      | none =>
        simp [validatePathParameters, hv, hsch]
      | some s =>
        cases hvas : validateAgainstSchema rt v s with
        | error e1 => simp [validatePathParameters, hv, hsch, hvas]
        | ok errs => simp [validatePathParameters, hv, hsch, hvas]
    · unfold validateQueryParameters
      cases hsch : p.schema with
      | none =>
        simp [validateQueryParameters, hv, hsch]
      | some s =>
        cases hvas : validateAgainstSchema rt v s with
        | error e1 => simp [validateQueryParameters, hv, hsch, hvas]
        | ok errs => simp [validateQueryParameters, hv, hsch, hvas]

/-- Witness for C10: with no `required` field, an absent path parameter
`id` produces the missing error while an absent query parameter `q` does
not. -/
theorem C10_witness :
    validatePathParameters rtTrue [{ name := "id", inLoc := "path" }] [] emptyResult =
      .ok (pushErr emptyResult "path" "id" "Required path parameter \x27id\x27 is missing")
    ∧ validateQueryParameters rtTrue [{ name := "q", inLoc := "query" }] [] emptyResult =
      .ok emptyResult := by
  have h1 := (C10_required_field_defaults rtTrue { name := "id", inLoc := "path" } []
    emptyResult).1 (by rfl)
  have h2 := (C10_required_field_defaults rtTrue { name := "q", inLoc := "query" } []
    emptyResult).1 (by rfl)
  constructor
  · rw [h1.1]
    rfl
  · rw [h2.2]
    rfl

theorem fetchSpec_forced_eq (rA rD : Nat) (ttl : Int) (net : Nat → AttemptRes)
    (url : String) (now : Int) (st : CacheState) :
    fetchSpec rA rD ttl net url true now st =
      (match fetchWithRetry net rA rD with
       | (.error e, _, _) => fetchSpecFallback ttl now url st s!"{describeFetchErr e}"
       | (.ok resp, _, _) =>
         if resp.status = 304 then
           match cacheGet ttl now url st with
           | (some cached, st) => (.ok cached.spec, st)
           | (none, st) => fetchSpecSuccess ttl now url st resp
         else fetchSpecSuccess ttl now url st resp) := rfl

theorem fetchSpec_unforced_eq (rA rD : Nat) (ttl : Int) (net : Nat → AttemptRes)
    (url : String) (now : Int) (st : CacheState) :
    fetchSpec rA rD ttl net url false now st =
      (match cacheGet ttl now url st with
       | (some cached, st) => (.ok cached.spec, st)
       | (none, st) =>
         match fetchWithRetry net rA rD with
         | (.error e, _, _) => fetchSpecFallback ttl now url st s!"{describeFetchErr e}"
         | (.ok resp, _, _) =>
           if resp.status = 304 then
             match cacheGet ttl now url st with
             | (some cached, st) => (.ok cached.spec, st)
             | (none, st) => fetchSpecSuccess ttl now url st resp
           else fetchSpecSuccess ttl now url st resp) := rfl

theorem fetchSpec_unforced_miss (rA rD : Nat) (ttl : Int) (net : Nat → AttemptRes)
    (url : String) (now : Int) (st st2 : CacheState)
    (hget : cacheGet ttl now url st = (none, st2)) :
    fetchSpec rA rD ttl net url false now st =
      (match fetchWithRetry net rA rD with
       | (.error e, _, _) => fetchSpecFallback ttl now url st2 s!"{describeFetchErr e}"
       | (.ok resp, _, _) =>
         if resp.status = 304 then
           match cacheGet ttl now url st2 with
           | (some cached, st) => (.ok cached.spec, st)
           | (none, st) => fetchSpecSuccess ttl now url st resp
         else fetchSpecSuccess ttl now url st2 resp) := by
  rw [fetchSpec_unforced_eq, hget]

/-- Counterexample to C1: with a cached entry present in both tiers for
the URL but stale (written at 0, `now = 10`, TTL 10) and every network
attempt failing, `fetchSpec` raises `Failed to fetch OpenAPI spec` instead
of returning the stale cached document: the catch-block fallback reads the
cache through the TTL-checking `get`, which rejects (and evicts) stale
entries. -/
theorem C1_counterexample_stale_fallback_not_returned :
    (assocLookup stStale.memory "u").isSome = true
    ∧ (assocLookup stStale.disk "u").isSome = true
    ∧ (fetchSpec 3 1000 10 netAllDown "u" true 10 stStale).1 =
        .error "Failed to fetch OpenAPI spec: down" :=
  ⟨rfl, rfl, rfl⟩

/-- C1 (amended): on exhausting retries, the cached fallback is consulted
through the TTL-enforcing `CacheManager.get`, so the cached document is
returned only when a fresh entry exists for the URL (possible only under
`forceRefresh`, which skipped the initial consult); whenever no fresh
entry exists the failure propagates, and under a non-forced fetch whose
initial cache consult missed, the post-failure consult finds nothing
either (the initial consult already evicted any stale entry), so the
failure always propagates. -/
theorem C1_fallback_requires_fresh_entry (rA rD : Nat) (ttl : Int)
    (net : Nat → AttemptRes) (url : String) (now : Int) (st : CacheState)
    (hfail : ∀ i, i < rA → ∃ e, net i = .failure e) :
    (∀ e st', cacheGet ttl now url st = (some e, st') →
        (fetchSpec rA rD ttl net url true now st).1 = .ok e.spec
        ∧ now - e.timestamp < ttl)
    ∧ ((cacheGet ttl now url st).1 = none →
        ∃ m, (fetchSpec rA rD ttl net url true now st).1 = .error m)
    ∧ (keysNodup st → (cacheGet ttl now url st).1 = none →
        ∃ m, (fetchSpec rA rD ttl net url false now st).1 = .error m) := by
  obtain ⟨fe, hfe⟩ := fetchWithRetryGo_all_failure net rD rA 0 none
    (fun i h1 h2 => hfail i (by omega))
  rcases hretry : fetchWithRetry net rA rD with ⟨res, calls, delays⟩
  have hres : res = .error fe := by
    have : (fetchWithRetry net rA rD).1 = .error fe := hfe
    rw [hretry] at this
    exact this
  subst hres
  refine ⟨?_, ?_, ?_⟩
  · intro e st' hget
    rw [fetchSpec_forced_eq, hretry]
    constructor
    · unfold fetchSpecFallback
      rw [hget]
    · exact (cacheGet_some_spec ttl now url st e st' hget).1
  · intro hnone
    rw [fetchSpec_forced_eq, hretry]
    rcases hget : cacheGet ttl now url st with ⟨res2, st2⟩
    rw [hget] at hnone
    simp only at hnone
    subst hnone
    unfold fetchSpecFallback
    rw [hget]
    exact ⟨_, rfl⟩
  · intro hnd hnone
    have hget : cacheGet ttl now url st = (none, (cacheGet ttl now url st).2) := by
      rw [← hnone]
    rw [fetchSpec_unforced_miss rA rD ttl net url now st _ hget, hretry]
    have hpost := cacheGet_none_post ttl now url st hnd hnone
    have hnone2 : (cacheGet ttl now url (cacheGet ttl now url st).2).1 = none := by
      apply cacheGet_none_of_stale
      · intro e he
        rw [hpost.1] at he
        exact Option.noConfusion he
      · intro e he
        rw [hpost.2] at he
        exact Option.noConfusion he
    unfold fetchSpecFallback
    have hget2 : cacheGet ttl now url (cacheGet ttl now url st).2 =
        (none, (cacheGet ttl now url (cacheGet ttl now url st).2).2) := by
      rw [← hnone2]
    rw [hget2]
    exact ⟨_, rfl⟩

/-- Witness for C1 (amended): concrete instantiations of the fresh-hit
fallback (forced refresh, fresh entry at `now = 5`) and of the propagated
failure when the cache is empty. -/
theorem C1_witness :
    ((fetchSpec 3 1000 10 netAllDown "u" true 5 stFresh).1 = .ok cacheEntry0.spec
      ∧ (5 : Int) - cacheEntry0.timestamp < 10)
    ∧ (∃ m, (fetchSpec 3 1000 10 netAllDown "u" false 5 ⟨[], []⟩).1 = .error m) := by
  constructor
  · exact (C1_fallback_requires_fresh_entry 3 1000 10 netAllDown "u" 5 stFresh
      (fun i _ => ⟨.network "down", rfl⟩)).1 cacheEntry0 stFresh (by rfl)
  · exact (C1_fallback_requires_fresh_entry 3 1000 10 netAllDown "u" 5 ⟨[], []⟩
      (fun i _ => ⟨.network "down", rfl⟩)).2.2 (by constructor <;> simp) (by rfl)
